import Mathlib

/-!
Verification of the QMS publish/reconciliation service.

The repository contains two near-duplicate FastAPI services that project a
JSON payload into a two-tab spreadsheet:
  * `app.py`  — the strict variant (`QMS` namespace below);
  * `main.py` — the permissive snapshot variant (`Mainpy` namespace below).

We shallowly embed the pure reconciliation logic: cells are `Val` (a model of
the JSON/Python values that can appear in a payload or a sheet cell), a tab is
a header row plus data rows, and the Google-Sheets client is modelled by
explicit state passing (reads are projections of the state, writes are state
updates, the final `values.batchUpdate` is a fold over staged range writes).
`datetime.now` and the random id generator are passed in as parameters
(`now`, `genId`), and `json.loads` — an external library call — is passed in
as `jsonLoads : String → Option Val`.
-/

namespace QMS

/-- Model of a Python/JSON value as it flows through the service: payload
fields, sheet cells and intermediate values.  `vObj` models a JSON object /
Python dict as an association list (keys unique, insertion ordered). -/
inductive Val where
  | vStr (s : String)
  | vBool (b : Bool)
  | vNull
  | vInt (n : Int)
  | vList (l : List Val)
  | vObj (kvs : List (String × Val))
deriving Repr

/-- A payload object (Python dict with string keys). -/
abbrev Obj := List (String × Val)

mutual

/-- Python `str(v)`.  For strings it is the identity; for containers Python
falls back to `repr` of the elements.  (We do not model Python's choice of
quote character or escaping inside `repr` of a string — no modelled code path
inspects the repr of a container.) -/
def pyStr : Val → String
  | .vStr s => s
  | .vBool b => if b then "True" else "False"
  | .vNull => "None"
  | .vInt n => toString n
  | .vList l => "[" ++ String.intercalate ", " (pyReprList l) ++ "]"
  | .vObj kvs => "\x7b" ++ String.intercalate ", " (pyReprObj kvs) ++ "\x7d"

/-- Python `repr(v)` (approximation, see `pyStr`). -/
def pyRepr : Val → String
  | .vStr s => "\x27" ++ s ++ "\x27"
  | .vBool b => if b then "True" else "False"
  | .vNull => "None"
  | .vInt n => toString n
  | .vList l => "[" ++ String.intercalate ", " (pyReprList l) ++ "]"
  | .vObj kvs => "\x7b" ++ String.intercalate ", " (pyReprObj kvs) ++ "\x7d"

def pyReprList : List Val → List String
  | [] => []
  | v :: rest => pyRepr v :: pyReprList rest

def pyReprObj : List (String × Val) → List String
  | [] => []
  | (k, v) :: rest => (pyRepr (.vStr k) ++ ": " ++ pyRepr v) :: pyReprObj rest

end

/-- Python `str.strip()` on the whitespace characters Python strips in the
ASCII range (space, tab, newline, carriage return, vertical tab, form
feed). -/
def isPySpace (c : Char) : Bool :=
  c = ' ' ∨ c = '\t' ∨ c = '\n' ∨ c = '\r' ∨ c = '\x0b' ∨ c = '\x0c'

def pyStrip (s : String) : String :=
  String.mk (((s.data.dropWhile isPySpace).reverse.dropWhile isPySpace).reverse)

/-- Python `str.lower()` (ASCII case folding; the recognized truthy strings
are all ASCII). -/
def pyLower (s : String) : String :=
  String.mk (s.data.map (fun c =>
    if 'A' ≤ c ∧ c ≤ 'Z' then Char.ofNat (c.toNat + 32) else c))

/-- Python `v is None`. -/
def Val.isNull : Val → Bool
  | .vNull => true
  | _ => false

/-- Python `obj.get(k)` / `obj[k]` on a dict modelled as an association list
(keys unique, so first match is the binding). -/
def lookupObj (obj : Obj) (k : String) : Option Val :=
  (obj.find? (fun kv => kv.1 = k)).map Prod.snd

/-- Python dict assignment `d[k] = v`: replaces the value in place if the key
is present, otherwise appends the binding (insertion order preserved). -/
def dinsertV (obj : Obj) (k : String) (v : Val) : Obj :=
  if obj.any (fun kv => kv.1 = k) then
    obj.map (fun kv => if kv.1 = k then (k, v) else kv)
  else obj ++ [(k, v)]

/-- `row[i] if i < len(row) else ""` — how every scan in the source reads a
cell from a (possibly short) sheet row. -/
def cellAt (row : List Val) (i : Nat) : Val :=
  if i < row.length then row.getD i (Val.vStr "") else Val.vStr ""

/-! ## `a1_col` (`app.py` lines 93–98, identical `_a1_col` in `main.py`)

```python
def a1_col(n: int) -> str:
    s = ""
    while n > 0:
        n, r = divmod(n - 1, 26)
        s = chr(65 + r) + s
    return s
```
-/

/-- The characters accumulated by the `a1_col` loop, most significant first.
The loop prepends `chr(65 + (n-1) % 26)` and continues with `(n-1) / 26`. -/
def a1ColChars : Nat → List Char
  | 0 => []
  | n + 1 => a1ColChars (n / 26) ++ [Char.ofNat (65 + n % 26)]
termination_by n => n
decreasing_by simp_wf; exact Nat.lt_succ_of_le (Nat.div_le_self _ _)

/-- `a1_col`: 1-based column index to spreadsheet column label. -/
def a1_col (n : Nat) : String := String.mk (a1ColChars n)

/-- Bijective base-26 value of a label, the inverse reading of `a1ColChars`. -/
def a1Decode (cs : List Char) : Nat :=
  cs.foldl (fun acc c => acc * 26 + (c.toNat - 64)) 0

/-! ## Sheet model

A tab is the header row (row 1) plus the data rows (rows 2..).  The Sheets
client is modelled by explicit state passing: `values.get` is a projection,
`values.update` / `values.append` are state updates, and `values.batchUpdate`
is a fold over the staged `(range, values)` pairs.  A staged range
`f"{tab}!A{rnum}:{a1_col(width)}{rnum}"` with a single row of `width` values
is represented symbolically as the triple (tab, rnum, values) — the source
always stages exactly `width` values for a width-`width` range, so the A1
string is determined by the triple. -/
structure Tab where
  header : List String
  rows : List (List Val)
deriving Repr

structure Sheet where
  main : Tab
  procs : Tab
deriving Repr

inductive TabId where
  | main
  | procs
deriving Repr, DecidableEq

/-- One staged in-place range write (one row, starting at column A). -/
structure Upd where
  tab : TabId
  row : Nat
  vals : List Val
deriving Repr

/-- Overwriting write of `vals` into columns `A..` of sheet row `rnum`
(1-based; data rows start at row 2).  Cells beyond the written range keep
their stored value. -/
def writeRowRange (t : Tab) (rnum : Nat) (vals : List Val) : Tab :=
  { t with rows := t.rows.set (rnum - 2) (vals ++ (t.rows.getD (rnum - 2) []).drop vals.length) }

/-- `batch_update` (`app.py` lines 85–90): the staged range writes are applied
by the Sheets API in order. -/
def batch_update (s : Sheet) (updates : List Upd) : Sheet :=
  updates.foldl (fun sh u =>
    match u.tab with
    | .main => { sh with main := writeRowRange sh.main u.row u.vals }
    | .procs => { sh with procs := writeRowRange sh.procs u.row u.vals }) s

/-- `append_row` (`app.py` lines 75–82): appends after the last data row. -/
def append_row (t : Tab) (vals : List Val) : Tab :=
  { t with rows := t.rows ++ [vals] }

/-! ## Schema manager, row locator, row patcher (`app.py` lines 101–186) -/

/-- `uniq` (`app.py` lines 101–108): drops duplicates and falsy (empty-string)
entries, keeping first-occurrence order. -/
def uniqAux (seen : List String) : List String → List String
  | [] => []
  | x :: rest =>
    if x ≠ "" ∧ x ∉ seen then x :: uniqAux (x :: seen) rest
    else uniqAux seen rest

def uniq (l : List String) : List String := uniqAux [] l

/-- The f-string detail of the schema-mismatch `HTTPException` (line 129). -/
def schemaErr (tab : String) (missing : List String) : String :=
  "Missing columns in \x27" ++ tab ++ "\x27: [" ++
    String.intercalate ", " (missing.map (fun c => "\x27" ++ c ++ "\x27")) ++
    "] (AUTO_ADD_COLUMNS=false)"

/-- `ensure_columns` (`app.py` lines 116–134).  Returns the (possibly
rewritten) tab together with the resulting header list, or the 400
schema-mismatch error; on error nothing has been written, so the tab is
returned unchanged. -/
def ensure_columns (autoAdd : Bool) (tabName : String) (t : Tab) (required : List String) :
    Tab × Except String (List String) :=
  let req := uniq required
  if t.header = [] then ({ t with header := req }, .ok req)
  else
    let missing := req.filter (fun c => c ∉ t.header)
    if missing = [] then (t, .ok t.header)
    else if autoAdd then
      ({ t with header := t.header ++ missing }, .ok (t.header ++ missing))
    else (t, .error (schemaErr tabName missing))

/-- The detail of the key-column `HTTPException` (line 139). -/
def keyColErr (keyCol tabName : String) : String :=
  "Key column \x27" ++ keyCol ++ "\x27 not found in tab \x27" ++ tabName ++ "\x27"

/-- The scan of `find_row_num_by_key` (lines 144–148): first data row, top to
bottom, whose cell at `idx` trim-equals `target`; `rnum` is the sheet row
number of the head of the remaining list. -/
def findRowAux (idx : Nat) (target : String) (rnum : Nat) : List (List Val) → Option Nat
  | [] => none
  | row :: rest =>
    if pyStrip (pyStr (cellAt row idx)) = target then some rnum
    else findRowAux idx target (rnum + 1) rest

/-- `find_row_num_by_key` (`app.py` lines 137–148).  `headers` is the header
list the caller passes (the ensured header of `t`); the data rows are read in
one `A:ZZ` range read. -/
def find_row_num_by_key (tabName : String) (headers : List String) (key_col : String)
    (key_value : Val) (t : Tab) : Except String (Option Nat) :=
  if key_col ∉ headers then .error (keyColErr key_col tabName)
  else .ok (findRowAux (headers.indexOf key_col) (pyStrip (pyStr key_value)) 2 t.rows)

/-- `get_row_values` (`app.py` lines 151–155): one row read, right-padded with
`""` and truncated to `width`. -/
def get_row_values (t : Tab) (row_num width : Nat) : List Val :=
  ((t.rows.getD (row_num - 2) []) ++ List.replicate width (Val.vStr "")).take width

/-- `patch_row` (`app.py` lines 158–169): for each `payload_key → sheet_col`
mapping entry, skip if the column is not in `headers`, skip if the key is not
in the payload, skip if its value is `None`, else overwrite that cell.
(`out[headers.index(sheet_col)] = val` is modelled by `List.set`; every call
site passes a row of exactly `len(headers)` cells, so the index is in
bounds.) -/
def patch_row (headers : List String) (current : List Val) (payload : Obj)
    (mapping : List (String × String)) : List Val :=
  mapping.foldl (fun out pm =>
    if pm.2 ∈ headers then
      match lookupObj payload pm.1 with
      | none => out
      | some v => if v.isNull then out else out.set (headers.indexOf pm.2) v
    else out) current

/-- `set_cell` (`app.py` lines 172–176): no-op if the column is absent. -/
def set_cell (headers : List String) (row : List Val) (col : String) (v : Val) : List Val :=
  if col ∈ headers then row.set (headers.indexOf col) v else row

/-- `get_flag` (`app.py` lines 179–186): the first recognized key present in
the payload decides; a bool is taken literally, anything else through its
trimmed lowercased string form. -/
def get_flag (obj : Obj) (keys : List String) : Bool :=
  match keys with
  | [] => false
  | k :: rest =>
    match lookupObj obj k with
    | some v =>
      match v with
      | .vBool b => b
      | _ => ["1", "true", "yes", "y"].contains (pyLower (pyStrip (pyStr v)))
    | none => get_flag obj rest

/-! ## The `/publish` handler of `app.py` (lines 194–434)

Configuration (from `mapping.yaml`, already resolved to its fields) plus the
`AUTO_ADD_COLUMNS` switch. -/
structure Config where
  main_tab : String
  proc_tab : String
  main_pk_col : String
  proc_fk_col : String
  proc_pk_col : String
  delete_flag_keys : List String
  processes_key : String
  main_mapping : List (String × String)
  proc_mapping : List (String × String)
  soft_col : String
  soft_at_col : String
  updated_at_col : String
  auto_add : Bool
deriving Repr

/-- The JSON body of the 200 response (the `ts` field is the same `now` the
handler used for the timestamp columns; the source calls `now_iso()` afresh
each time, we model one timestamp per request). -/
structure PubResult where
  row_id : String
  main_action : String
  added : Nat
  updated : Nat
  deleted : Nat
  ts : String
deriving Repr, DecidableEq

/-- `existing_for_row[uid]` — dict lookup, keys unique by construction. -/
def dlookup (m : List (String × Nat)) (k : String) : Option Nat :=
  (m.find? (fun kv => kv.1 = k)).map Prod.snd

/-- Python dict assignment for the `uid → row_num` map: later rows overwrite
the value, the key keeps its first-insertion position. -/
def dinsertN (m : List (String × Nat)) (k : String) (v : Nat) : List (String × Nat) :=
  if m.any (fun kv => kv.1 = k) then
    m.map (fun kv => if kv.1 = k then (k, v) else kv)
  else m ++ [(k, v)]

/-- The `existing_for_row` scan (`app.py` lines 328–336): rows whose
foreign-key cell trim-equals `rid`, keyed by non-blank trimmed UID cell. -/
def buildExistingAux (fk_idx uid_idx : Nat) (rid : String) (acc : List (String × Nat))
    (rnum : Nat) : List (List Val) → List (String × Nat)
  | [] => acc
  | row :: rest =>
    if pyStrip (pyStr (cellAt row fk_idx)) ≠ rid then
      buildExistingAux fk_idx uid_idx rid acc (rnum + 1) rest
    else if pyStrip (pyStr (cellAt row uid_idx)) = "" then
      buildExistingAux fk_idx uid_idx rid acc (rnum + 1) rest
    else
      buildExistingAux fk_idx uid_idx rid
        (dinsertN acc (pyStrip (pyStr (cellAt row uid_idx))) rnum) (rnum + 1) rest

def buildExisting (fk_idx uid_idx : Nat) (rid : String) (rows : List (List Val)) :
    List (String × Nat) :=
  buildExistingAux fk_idx uid_idx rid [] 2 rows

/-- Well-formedness of the `uid → row_num` map while it is being built: keys
are unique, row numbers are data-row numbers below `bound`, and distinct UIDs
point at distinct rows. -/
def ExistingInv (acc : List (String × Nat)) (bound : Nat) : Prop :=
  (acc.map Prod.fst).Nodup ∧
  (∀ kv ∈ acc, 2 ≤ kv.2 ∧ kv.2 < bound) ∧
  (∀ kv1 ∈ acc, ∀ kv2 ∈ acc, kv1.1 ≠ kv2.1 → kv1.2 ≠ kv2.2)

/-- The trimmed UIDs of the child rows recorded for parent key `rid`: rows
whose foreign-key cell trim-equals `rid` and whose UID cell is non-blank. -/
def matchUids (fk_idx uid_idx : Nat) (rid : String) (rows : List (List Val)) : List String :=
  (rows.filter (fun row => pyStrip (pyStr (cellAt row fk_idx)) = rid ∧
      pyStrip (pyStr (cellAt row uid_idx)) ≠ "")).map
    (fun row => pyStrip (pyStr (cellAt row uid_idx)))

/-- The trimmed string form of a child object's `"UID"` value (blank when the
key is absent), as computed by the loop's validation and by `uid`. -/
def uidOf (p : Obj) : String :=
  pyStrip (pyStr ((lookupObj p "UID").getD (Val.vStr "")))

/-- `[p for p in processes_raw if isinstance(p, dict)]`. -/
def objsOf (l : List Val) : List Obj :=
  l.filterMap (fun v => match v with
    | .vObj o => some o
    | _ => none)

/-- State threaded through the `for p in processes:` loop. -/
structure ChildAcc where
  headers : List String
  updates : List Upd
  added : Nat
  updated : Nat
  incoming : List String
  gi : Nat
deriving Repr

/-- The `if p_is_deleted:` block shared by both child branches (`app.py`
lines 369–376 and 391–398): ensure the soft-delete columns, re-pad the row to
the (possibly extended) header width and set the flag and timestamp cells. -/
def applyChildSoftDelete (cfg : Config) (now : String) (t : Tab) (headers : List String)
    (row : List Val) (p_del : Bool) : Tab × Except String (List String × List Val) :=
  if p_del then
    match ensure_columns cfg.auto_add cfg.proc_tab t
        ([cfg.soft_col, cfg.soft_at_col] ++ headers) with
    | (t1, .error e) => (t1, .error e)
    | (t1, .ok ph1) =>
      let r1 := (row ++ List.replicate ph1.length (Val.vStr "")).take ph1.length
      let r1 := if cfg.soft_col ∈ ph1 then
          set_cell ph1 r1 cfg.soft_col (Val.vBool true) else r1
      let r1 := if cfg.soft_at_col ∈ ph1 then
          set_cell ph1 r1 cfg.soft_at_col (Val.vStr now) else r1
      (t1, .ok (ph1, r1))
  else (t, .ok (headers, row))

/-- One iteration of the child loop (`app.py` lines 344–404). -/
def childStep (cfg : Config) (now : String) (genId : Nat → String) (rid : String)
    (existing : List (String × Nat)) (acc : ChildAcc) (p : Obj) (s : Sheet) :
    Sheet × Except String ChildAcc :=
  -- `if "UID" not in p or not str(p.get("UID", "")).strip():` (lines 345–346)
  match lookupObj p "UID" with
  | none => (s, .error "Each process must include non-empty \x27UID\x27")
  | some uv =>
    if pyStrip (pyStr uv) = "" then (s, .error "Each process must include non-empty \x27UID\x27")
    else
      let uid := pyStrip (pyStr uv)
      let incoming1 := acc.incoming ++ [uid]
      let p_del := get_flag p cfg.delete_flag_keys
      -- `_proc_row_id` or a fresh 7-char alphanumeric id (lines 353–355)
      let pk0 := pyStrip (pyStr ((lookupObj p "_proc_row_id").getD (Val.vStr "")))
      let pkAndGi := if pk0 = "" then (genId acc.gi, acc.gi + 1) else (pk0, acc.gi)
      let proc_row_pk := pkAndGi.1
      let payload_p :=
        dinsertV (dinsertV (dinsertV p "row_id" (Val.vStr rid)) "UID" (Val.vStr uid))
          "_proc_row_id" (Val.vStr proc_row_pk)
      match dlookup existing uid with
      | some rnum =>
        -- update an existing child row (lines 363–383)
        let width := acc.headers.length
        let current := get_row_values s.procs rnum width
        let patched := patch_row acc.headers current payload_p cfg.proc_mapping
        match applyChildSoftDelete cfg now s.procs acc.headers patched p_del with
        | (t1, .error e) => ({ s with procs := t1 }, .error e)
        | (t1, .ok (ph1, patched1)) =>
          let patched2 := if cfg.updated_at_col ≠ "" ∧ cfg.updated_at_col ∈ ph1 then
              set_cell ph1 patched1 cfg.updated_at_col (Val.vStr now) else patched1
          ({ s with procs := t1 },
           .ok { acc with
                 headers := ph1,
                 updates := acc.updates ++ [⟨TabId.procs, rnum, patched2⟩],
                 updated := acc.updated + 1,
                 incoming := incoming1,
                 gi := pkAndGi.2 })
      | none =>
        -- append a new child row (lines 385–404); `proc_headers.index(...)` at
        -- lines 387–388 raises an uncaught `ValueError` (HTTP 500, request
        -- aborted) when the column is absent from the headers — reachable for
        -- a blank configured column name, which `uniq` drops from the ensured
        -- set — so both index calls are modelled as error results, in the
        -- order Python evaluates them.
        if cfg.proc_fk_col ∉ acc.headers then
          (s, .error ("ValueError: \x27" ++ cfg.proc_fk_col ++ "\x27 is not in list"))
        else if cfg.proc_pk_col ∉ acc.headers then
          (s, .error ("ValueError: \x27" ++ cfg.proc_pk_col ++ "\x27 is not in list"))
        else
          let width := acc.headers.length
          let new_row := List.replicate width (Val.vStr "")
          let new_row := new_row.set (acc.headers.indexOf cfg.proc_fk_col) (Val.vStr rid)
          let new_row := new_row.set (acc.headers.indexOf cfg.proc_pk_col)
            (Val.vStr proc_row_pk)
          let new_row := patch_row acc.headers new_row payload_p cfg.proc_mapping
          match applyChildSoftDelete cfg now s.procs acc.headers new_row p_del with
          | (t1, .error e) => ({ s with procs := t1 }, .error e)
          | (t1, .ok (ph1, nr1)) =>
            let nr2 := if cfg.updated_at_col ≠ "" ∧ cfg.updated_at_col ∈ ph1 then
                set_cell ph1 nr1 cfg.updated_at_col (Val.vStr now) else nr1
            ({ s with procs := append_row t1 nr2 },
             .ok { acc with
                   headers := ph1,
                   added := acc.added + 1,
                   incoming := incoming1,
                   gi := pkAndGi.2 })

def childLoop (cfg : Config) (now : String) (genId : Nat → String) (rid : String)
    (existing : List (String × Nat)) (ps : List Obj) (acc : ChildAcc) (s : Sheet) :
    Sheet × Except String ChildAcc :=
  match ps with
  | [] => (s, .ok acc)
  | p :: rest =>
    match childStep cfg now genId rid existing acc p s with
    | (s1, .ok acc1) => childLoop cfg now genId rid existing rest acc1 s1
    | (s1, .error e) => (s1, .error e)

/-- Lines 414–419: set the soft-delete flag and timestamp (each gated on the
column being present) and the updated-at timestamp on a removed child row. -/
def softDeleteRow (cfg : Config) (now : String) (ph : List String) (current : List Val) :
    List Val :=
  let c1 := if cfg.soft_col ∈ ph then
      set_cell ph current cfg.soft_col (Val.vBool true) else current
  let c2 := if cfg.soft_at_col ∈ ph then
      set_cell ph c1 cfg.soft_at_col (Val.vStr now) else c1
  if cfg.updated_at_col ≠ "" ∧ cfg.updated_at_col ∈ ph then
    set_cell ph c2 cfg.updated_at_col (Val.vStr now)
  else c2

/-- The inferred-delete loop over `removed` (`app.py` lines 410–422).  The
Python `removed` is a `set`; its iteration order is unspecified, and since
the loop touches pairwise distinct rows and never writes the sheet (it only
stages updates), the final state is order independent — we iterate in the
insertion order of `existing_for_row`. -/
def removedLoop (cfg : Config) (now : String) (existing : List (String × Nat))
    (ph : List String) (s : Sheet) : List String → List Upd × Nat
  | [] => ([], 0)
  | uid :: rest =>
    let rnum := (dlookup existing uid).getD 0
    let width := ph.length
    let current := softDeleteRow cfg now ph (get_row_values s.procs rnum width)
    let restRes := removedLoop cfg now existing ph s rest
    (⟨TabId.procs, rnum, current⟩ :: restRes.1, restRes.2 + 1)

/-- Normalization of a string-encoded child list (`app.py` lines 299–310). -/
def parseProcessesRaw (jsonLoads : String → Option Val) (processes_key : String)
    (raw0 : Val) : Except String Val :=
  match raw0 with
  | .vStr str =>
    if pyStrip str = "" then .ok (Val.vList [])
    else
      match jsonLoads str with
      | some v => .ok v
      | none => .error ("Invalid JSON in \x27" ++ processes_key ++ "\x27 string")
  | v => .ok v

/-- The `PROCESSES` block of the handler (`app.py` lines 293–422): returns
`(added, updated, deleted)` and the staged child-range writes.  Absent
child-list key: nothing is read or staged and the counts are zero.  The
`proc_headers.index(proc_fk_col)` call raises an uncaught `ValueError` when
the column is missing (possible only for a blank configured column name,
which `uniq` drops from the ensured set); we model it as an error result. -/
def procPhase (cfg : Config) (now : String) (genId : Nat → String)
    (jsonLoads : String → Option Val) (body : Obj) (rid : String)
    (proc_headers : List String) (s : Sheet) :
    Sheet × Except String ((Nat × Nat × Nat) × List Upd) :=
  match lookupObj body cfg.processes_key with
  | none => (s, .ok ((0, 0, 0), []))
  | some raw0 =>
    match parseProcessesRaw jsonLoads cfg.processes_key raw0 with
    | .error e => (s, .error e)
    | .ok raw =>
      match (match raw with
             | .vNull => .ok []
             | .vList l => .ok (objsOf l)
             | _ => .error ("\x27" ++ cfg.processes_key ++ "\x27 must be a list (or JSON string)")
             : Except String (List Obj)) with
      | .error e => (s, .error e)
      | .ok processes =>
        if cfg.proc_fk_col ∉ proc_headers then
          (s, .error ("ValueError: \x27" ++ cfg.proc_fk_col ++ "\x27 is not in list"))
        else if "UID" ∉ proc_headers then
          (s, .error "Processes tab missing required column \x27UID\x27")
        else
          let proc_fk_idx := proc_headers.indexOf cfg.proc_fk_col
          let proc_uid_idx := proc_headers.indexOf "UID"
          let existing := buildExisting proc_fk_idx proc_uid_idx rid s.procs.rows
          match (if cfg.updated_at_col ≠ "" then
                   ensure_columns cfg.auto_add cfg.proc_tab s.procs
                     ([cfg.updated_at_col] ++ proc_headers)
                 else (s.procs, .ok proc_headers)) with
          | (t1, .error e) => ({ s with procs := t1 }, .error e)
          | (t1, .ok ph1) =>
            match childLoop cfg now genId rid existing processes
                ⟨ph1, [], 0, 0, [], 0⟩ { s with procs := t1 } with
            | (s2, .error e) => (s2, .error e)
            | (s2, .ok acc) =>
              let removedL := (existing.map Prod.fst).filter (fun u => u ∉ acc.incoming)
              if removedL = [] then
                (s2, .ok ((acc.added, acc.updated, 0), acc.updates))
              else
                match (if cfg.auto_add then
                         ensure_columns cfg.auto_add cfg.proc_tab s2.procs
                           ([cfg.soft_col, cfg.soft_at_col] ++ acc.headers)
                       else (s2.procs, .ok acc.headers)) with
                | (t2, .error e) => ({ s2 with procs := t2 }, .error e)
                | (t2, .ok ph2) =>
                  let s3 := { s2 with procs := t2 }
                  let rl := removedLoop cfg now existing ph2 s3 removedL
                  (s3, .ok ((acc.added, acc.updated, rl.2), acc.updates ++ rl.1))

/-- The `MAIN` block of the handler (`app.py` lines 240–286): returns the main
action string and the staged main-range write (at most one). -/
def mainPhase (cfg : Config) (now : String) (body : Obj) (rid : String)
    (main_headers : List String) (s : Sheet) :
    Sheet × Except String (String × List Upd) :=
  match find_row_num_by_key cfg.main_tab main_headers cfg.main_pk_col (Val.vStr rid) s.main with
  | .error e => (s, .error e)
  | .ok main_row_num =>
    if get_flag body cfg.delete_flag_keys then
      match main_row_num with
      | some rnum =>
        match ensure_columns cfg.auto_add cfg.main_tab s.main
            ([cfg.soft_col, cfg.soft_at_col, cfg.updated_at_col] ++ main_headers) with
        | (t1, .error e) => ({ s with main := t1 }, .error e)
        | (t1, .ok mh1) =>
          let width := mh1.length
          let current := get_row_values t1 rnum width
          let current := set_cell mh1 current cfg.soft_col (Val.vBool true)
          let current := set_cell mh1 current cfg.soft_at_col (Val.vStr now)
          let current := if cfg.updated_at_col ≠ "" then
              set_cell mh1 current cfg.updated_at_col (Val.vStr now) else current
          ({ s with main := t1 }, .ok ("soft_delete", [⟨TabId.main, rnum, current⟩]))
      | none => (s, .ok ("soft_delete", []))
    else
      match main_row_num with
      | none =>
        let width := main_headers.length
        let new_row := List.replicate width (Val.vStr "")
        let new_row := new_row.set (main_headers.indexOf cfg.main_pk_col) (Val.vStr rid)
        let new_row := patch_row main_headers new_row body cfg.main_mapping
        if cfg.updated_at_col ≠ "" then
          match ensure_columns cfg.auto_add cfg.main_tab s.main
              ([cfg.updated_at_col] ++ main_headers) with
          | (t1, .error e) => ({ s with main := t1 }, .error e)
          | (t1, .ok mh1) =>
            let nr1 := (new_row ++ List.replicate mh1.length (Val.vStr "")).take mh1.length
            let nr1 := nr1.set (mh1.indexOf cfg.updated_at_col) (Val.vStr now)
            ({ s with main := append_row t1 nr1 }, .ok ("add", []))
        else ({ s with main := append_row s.main new_row }, .ok ("add", []))
      | some rnum =>
        let width := main_headers.length
        let current := get_row_values s.main rnum width
        let patched := patch_row main_headers current body cfg.main_mapping
        if cfg.updated_at_col ≠ "" then
          match ensure_columns cfg.auto_add cfg.main_tab s.main
              ([cfg.updated_at_col] ++ main_headers) with
          | (t1, .error e) => ({ s with main := t1 }, .error e)
          | (t1, .ok mh1) =>
            let p1 := (patched ++ List.replicate mh1.length (Val.vStr "")).take mh1.length
            let p1 := set_cell mh1 p1 cfg.updated_at_col (Val.vStr now)
            ({ s with main := t1 }, .ok ("update", [⟨TabId.main, rnum, p1⟩]))
        else (s, .ok ("update", [⟨TabId.main, rnum, patched⟩]))

/-- `POST /publish` (`app.py` lines 194–434).  Returns the state of the
spreadsheet after the request together with the JSON result or the HTTP
error detail.  On an error the staged (not yet batched) in-place updates are
lost, but header writes and appends performed before the failure persist —
exactly the handler's non-transactional behaviour. -/
def publish (cfg : Config) (now : String) (genId : Nat → String)
    (jsonLoads : String → Option Val) (body : Obj) (s0 : Sheet) :
    Sheet × Except String PubResult :=
  match lookupObj body "row_id" with
  | none => (s0, .error "Missing \x27row_id\x27 in payload")
  | some rv =>
    if pyStrip (pyStr rv) = "" then (s0, .error "Missing \x27row_id\x27 in payload")
    else
      let rid := pyStrip (pyStr rv)
      match ensure_columns cfg.auto_add cfg.main_tab s0.main
          ([cfg.main_pk_col] ++ cfg.main_mapping.map Prod.snd) with
      | (t1, .error e) => ({ s0 with main := t1 }, .error e)
      | (t1, .ok main_headers) =>
        let s1 := { s0 with main := t1 }
        match ensure_columns cfg.auto_add cfg.proc_tab s1.procs
            ([cfg.proc_fk_col, cfg.proc_pk_col] ++ cfg.proc_mapping.map Prod.snd) with
        | (t2, .error e) => ({ s1 with procs := t2 }, .error e)
        | (t2, .ok proc_headers) =>
          let s2 := { s1 with procs := t2 }
          match mainPhase cfg now body rid main_headers s2 with
          | (s3, .error e) => (s3, .error e)
          | (s3, .ok mainRes) =>
            match procPhase cfg now genId jsonLoads body rid proc_headers s3 with
            | (s4, .error e) => (s4, .error e)
            | (s4, .ok procRes) =>
              (batch_update s4 (mainRes.2 ++ procRes.2),
               .ok ⟨rid, mainRes.1, procRes.1.1, procRes.1.2.1, procRes.1.2.2, now⟩)

end QMS

namespace Mainpy

/-! ## The `main.py` variant ("Publish Webhook Service")

Same sheet/value model; the handler differs in several places: no `uniq` in
`_ensure_headers`, a `None` result (not an error) from `_find_row_by_key`
when the key column is missing, full-row rebuild via `_row_to_values` on the
main update path, delete intent inferred from an all-blank snapshot, and a
child block whose inferred-delete step runs even when the child-list key is
absent from the payload. -/

open QMS (Val Obj Tab Sheet TabId Upd lookupObj dinsertV cellAt pyStr pyStrip pyLower
  writeRowRange batch_update append_row findRowAux dlookup dinsertN schemaErr)

/-- `_ensure_headers` (`main.py` lines 99–122): like `ensure_columns` but with
no deduplication or blank-dropping of `required`. -/
def ensure_headers (autoAdd : Bool) (tabName : String) (t : Tab) (required : List String) :
    Tab × Except String (List String) :=
  if t.header = [] then ({ t with header := required }, .ok required)
  else
    let missing := required.filter (fun c => c ∉ t.header)
    if missing ≠ [] ∧ ¬ autoAdd then (t, .error (schemaErr tabName missing))
    else if missing ≠ [] then
      ({ t with header := t.header ++ missing }, .ok (t.header ++ missing))
    else (t, .ok t.header)

/-- `_find_row_by_key` (`main.py` lines 127–148): returns `none` (not an
error) when the key column is missing.  The data read is `A2:Z`, i.e. only the
first 26 columns, so cells beyond column Z are seen as blank. -/
def find_row_by_key (headers : List String) (key_col : String) (key_value : Val)
    (t : Tab) : Option Nat :=
  if key_col ∉ headers then none
  else findRowAux (headers.indexOf key_col) (pyStrip (pyStr key_value)) 2
    (t.rows.map (fun r => r.take 26))

/-- `_row_to_values` (`main.py` lines 150–167): builds a fresh row of blanks
aligned to `headers` and fills in only the mapped payload fields
(`payload.get(key, "")`, with `None` coerced to `""`). -/
def row_to_values (headers : List String) (payload : Obj)
    (mapping : List (String × String)) : List Val :=
  mapping.foldl (fun values pm =>
    if pm.2 ∈ headers then
      let v := match lookupObj payload pm.1 with
               | none => Val.vStr ""
               | some Val.vNull => Val.vStr ""
               | some v => v
      values.set (headers.indexOf pm.2) v
    else values) (List.replicate headers.length (Val.vStr ""))

/-- `v is None or str(v).strip() == ""` for a snapshot field. -/
def isBlankVal (v : Val) : Bool :=
  match v with
  | .vNull => true
  | v => pyStrip (pyStr v) = ""

/-- `_is_delete_snapshot` (`main.py` lines 169–183): delete when every
snapshot field other than the literal key `"RowID"` is blank and the process
list is `None` or empty. -/
def is_delete_snapshot (main_obj : Obj) (processes : Option (List Val)) : Bool :=
  let main_empty := (main_obj.filter (fun kv => kv.1 ≠ "RowID")).all (fun kv => isBlankVal kv.2)
  let proc_empty := match processes with
                    | none => true
                    | some l => l.isEmpty
  main_empty && proc_empty

/-- `_col_index_map` (`main.py` lines 124–125) builds `{h: i}` by forward
enumeration, so for a duplicated header name the **last** index wins (unlike
`list.index`, which yields the first).  Absent columns are unreachable after
`_ensure_headers`; we default to `headers.length` (an out-of-range `set` is a
no-op). -/
def col_index_map_get (headers : List String) (c : String) : Nat :=
  ((headers.enum.foldl (fun acc hi => if hi.2 = c then some hi.1 else acc) none).getD
    headers.length)

/-- Configuration of the `main.py` handler (from `columns.yaml` plus env).
An unconfigured optional column is the empty string (Python falsy). -/
structure MConfig where
  row_key_payload : String
  main_key_col : String
  sub_key_col : String
  sub_fk_col : String
  processes_key : String
  proc_id_payload_key : String
  main_mapping : List (String × String)
  sub_mapping : List (String × String)
  main_updated_at_col : String
  main_deleted_col : String
  main_deleted_at_col : String
  sub_updated_at_col : String
  sub_deleted_col : String
  sub_deleted_at_col : String
  auto_add : Bool
deriving Repr

/-- The 200 response of the `main.py` handler. -/
structure MResult where
  row_id : String
  main_action : String
  added : Nat
  updated : Nat
  deleted : Nat
  ts : String
deriving Repr, DecidableEq

/-- `list(set(...))` over mapped column names: the iteration order of a Python
set is unspecified; we keep first-occurrence order (the choice only affects
the order of auto-added columns). -/
def dedupFirst (l : List String) : List String := l.dedup

/-- The `existing_for_row` scan of `main.py` (lines 313–322), same shape as
the strict variant's. -/
def buildExistingM (fk_idx pid_idx : Nat) (rid : String) (rows : List (List Val)) :
    List (String × Nat) :=
  QMS.buildExistingAux fk_idx pid_idx rid [] 2 rows

/-- The `for proc in processes:` loop of `main.py` (lines 328–356): non-dict
entries and blank process ids are silently skipped. -/
def subLoop (cfg : MConfig) (now : String) (rid : String)
    (existing : List (String × Nat)) (sub_headers : List String) :
    List Val → (List Upd × Nat × Nat × List String) → Sheet →
    Sheet × (List Upd × Nat × Nat × List String)
  | [], acc, s => (s, acc)
  | v :: rest, acc, s =>
    match v with
    | .vObj proc =>
      let proc_uid := pyStrip (pyStr ((lookupObj proc cfg.proc_id_payload_key).getD (Val.vStr "")))
      if proc_uid = "" then subLoop cfg now rid existing sub_headers rest acc s
      else
        let acc := (acc.1, acc.2.1, acc.2.2.1, acc.2.2.2 ++ [proc_uid])
        let proc_with_fk := dinsertV proc cfg.sub_fk_col (Val.vStr rid)
        let proc_row_vals := row_to_values sub_headers proc_with_fk cfg.sub_mapping
        let proc_row_vals := if cfg.sub_updated_at_col ≠ "" ∧ cfg.sub_updated_at_col ∈ sub_headers then
            proc_row_vals.set (sub_headers.indexOf cfg.sub_updated_at_col) (Val.vStr now)
          else proc_row_vals
        match dlookup existing proc_uid with
        | some rnum =>
          subLoop cfg now rid existing sub_headers rest
            (acc.1 ++ [⟨TabId.procs, rnum, proc_row_vals⟩], acc.2.1, acc.2.2.1 + 1, acc.2.2.2) s
        | none =>
          subLoop cfg now rid existing sub_headers rest
            (acc.1, acc.2.1 + 1, acc.2.2.1, acc.2.2.2)
            { s with procs := append_row s.procs proc_row_vals }
    | _ => subLoop cfg now rid existing sub_headers rest acc s

/-- The removed-processes loop of `main.py` (lines 367–377): sets the
soft-delete flag and timestamp (but no updated-at) on each removed row.  The
row is read as `A{rnum}:ZZ{rnum}` and normalized to the header length. -/
def subRemovedLoop (cfg : MConfig) (now : String) (existing : List (String × Nat))
    (sub_headers : List String) (s : Sheet) : List String → List Upd × Nat
  | [] => ([], 0)
  | uid :: rest =>
    let rnum := (dlookup existing uid).getD 0
    let current := s.procs.rows.getD (rnum - 2) []
    let normalized := (current ++ List.replicate sub_headers.length (Val.vStr "")).take
      sub_headers.length
    let normalized := normalized.set (col_index_map_get sub_headers cfg.sub_deleted_col)
      (Val.vBool true)
    let normalized := normalized.set (col_index_map_get sub_headers cfg.sub_deleted_at_col)
      (Val.vStr now)
    let restRes := subRemovedLoop cfg now existing sub_headers s rest
    (⟨TabId.procs, rnum, normalized⟩ :: restRes.1, restRes.2 + 1)

/-- `POST /publish` of `main.py` (lines 203–389). -/
def publish (cfg : MConfig) (now : String) (body : Obj) (s0 : Sheet) :
    Sheet × Except String MResult :=
  let rid := pyStrip (pyStr ((lookupObj body cfg.row_key_payload).getD (Val.vStr "")))
  if rid = "" then (s0, .error ("Missing \x27" ++ cfg.row_key_payload ++ "\x27"))
  else
    match (match lookupObj body cfg.processes_key with
           | none => .ok none
           | some Val.vNull => .ok none
           | some (Val.vList l) => .ok (some l)
           | some _ => .error ("\x27" ++ cfg.processes_key ++ "\x27 must be a list if present")
           : Except String (Option (List Val))) with
    | .error e => (s0, .error e)
    | .ok processes =>
      -- ---- MAIN TAB ----
      let main_required := dedupFirst (cfg.main_mapping.map Prod.snd) ++
        (if cfg.main_updated_at_col ≠ "" then [cfg.main_updated_at_col] else [])
      match ensure_headers cfg.auto_add "Main" s0.main main_required with
      | (t1, .error e) => ({ s0 with main := t1 }, .error e)
      | (t1, .ok main_headers) =>
        let s1 := { s0 with main := t1 }
        let main_row_num := find_row_by_key main_headers cfg.main_key_col (Val.vStr rid) s1.main
        let main_snapshot := cfg.main_mapping.map
          (fun pm => (pm.1, (lookupObj body pm.1).getD Val.vNull))
        let main_snapshot := dinsertV main_snapshot cfg.row_key_payload (Val.vStr rid)
        let delete_main := is_delete_snapshot main_snapshot processes
        match (if delete_main then
                 match ensure_headers cfg.auto_add "Main" s1.main
                     ([cfg.main_deleted_col, cfg.main_deleted_at_col] ++ main_headers) with
                 | (t2, .error e) => (t2, .error e)
                 | (t2, .ok mh2) =>
                   match main_row_num with
                   | none => (t2, .ok ("noop_delete", ([] : List Upd), mh2))
                   | some rnum =>
                     let current := t2.rows.getD (rnum - 2) []
                     let normalized := (current ++ List.replicate mh2.length (Val.vStr "")).take
                       mh2.length
                     let normalized := normalized.set
                       (col_index_map_get mh2 cfg.main_deleted_col) (Val.vBool true)
                     let normalized := normalized.set
                       (col_index_map_get mh2 cfg.main_deleted_at_col) (Val.vStr now)
                     (t2, .ok ("soft_delete", [⟨TabId.main, rnum, normalized⟩], mh2))
               else
                 -- upsert: the row is rebuilt from the payload alone
                 let body1 := if cfg.main_updated_at_col ≠ "" then
                     dinsertV body "_updated_at" (Val.vStr now) else body
                 let row_values := row_to_values main_headers body1 cfg.main_mapping
                 let row_values := if cfg.main_updated_at_col ≠ "" ∧
                     cfg.main_updated_at_col ∈ main_headers then
                     row_values.set (main_headers.indexOf cfg.main_updated_at_col) (Val.vStr now)
                   else row_values
                 match main_row_num with
                 | none => (append_row s1.main row_values, .ok ("add", ([] : List Upd), main_headers))
                 | some rnum =>
                   (s1.main, .ok ("update", [⟨TabId.main, rnum, row_values⟩], main_headers))
               : Tab × Except String (String × List Upd × List String)) with
        | (t2, .error e) => ({ s1 with main := t2 }, .error e)
        | (t2, .ok mainRes) =>
          let s2 := { s1 with main := t2 }
          let main_action := mainRes.1
          let updates0 := mainRes.2.1
          -- ---- SUB TAB ----
          let sub_required := dedupFirst (cfg.sub_mapping.map Prod.snd) ++
            [cfg.sub_fk_col, cfg.sub_key_col] ++
            (if cfg.sub_updated_at_col ≠ "" then [cfg.sub_updated_at_col] else [])
          match ensure_headers cfg.auto_add "Processes" s2.procs sub_required with
          | (t3, .error e) => ({ s2 with procs := t3 }, .error e)
          | (t3, .ok sub_headers) =>
            let s3 := { s2 with procs := t3 }
            let existing := if cfg.sub_fk_col ∈ sub_headers ∧ cfg.sub_key_col ∈ sub_headers then
                buildExistingM (sub_headers.indexOf cfg.sub_fk_col)
                  (sub_headers.indexOf cfg.sub_key_col) rid s3.procs.rows
              else []
            let loopRes := (match processes with
                            | some l =>
                              if l.isEmpty then (s3, (([] : List Upd), 0, 0, ([] : List String)))
                              else subLoop cfg now rid existing sub_headers l ([], 0, 0, []) s3
                            | none => (s3, ([], 0, 0, [])))
            let s4 := loopRes.1
            let subUpds := loopRes.2.1
            let addedN := loopRes.2.2.1
            let updatedN := loopRes.2.2.2.1
            let incoming := loopRes.2.2.2.2
            let removedL := (existing.map Prod.fst).filter (fun u => u ∉ incoming)
            match (if removedL ≠ [] then
                     ensure_headers cfg.auto_add "Processes" s4.procs
                       ([cfg.sub_deleted_col, cfg.sub_deleted_at_col] ++ sub_headers)
                   else (s4.procs, .ok sub_headers)) with
            | (t4, .error e) => ({ s4 with procs := t4 }, .error e)
            | (t4, .ok sh2) =>
              let s5 := { s4 with procs := t4 }
              let rl := if removedL ≠ [] then subRemovedLoop cfg now existing sh2 s5 removedL
                        else ([], 0)
              (batch_update s5 (updates0 ++ subUpds ++ rl.1),
               .ok ⟨rid, main_action, addedN, updatedN, rl.2, now⟩)

end Mainpy

namespace QMS

/-- Spec-side reading of "its value, interpreted as boolean (`true`/`1`/
`"true"`/`"yes"`/`"y"`, case-insensitive, treated as true; everything else
false, booleans taken literally)". -/
def truthyVal (v : Val) : Bool :=
  match v with
  | .vBool b => b
  | _ => ["1", "true", "yes", "y"].contains (pyLower (pyStrip (pyStr v)))

end QMS

/-! ## Concrete scenarios used by counterexamples and witnesses -/

namespace Cx

open QMS

/-- Strict-variant config: default soft-delete/updated-at column names, one
recognized delete-flag key, auto-extension disabled. -/
def cfgStrict : Config :=
  { main_tab := "Main", proc_tab := "Processes",
    main_pk_col := "ID", proc_fk_col := "ID", proc_pk_col := "PID",
    delete_flag_keys := ["is_deleted"], processes_key := "processes",
    main_mapping := [], proc_mapping := [],
    soft_col := "is_deleted", soft_at_col := "deleted_at",
    updated_at_col := "updated_at", auto_add := false }

/-- Child tab without the soft-delete columns (legal under the strict
variant's ensured set, which never includes them up front). -/
def sheetNoSoft : Sheet :=
  { main := { header := ["ID", "updated_at"], rows := [[Val.vStr "R1"]] },
    procs := { header := ["ID", "PID", "UID", "updated_at"],
               rows := [[Val.vStr "R1", Val.vStr "P1", Val.vStr "U1"],
                        [Val.vStr "R1", Val.vStr "P2", Val.vStr "U2"]] } }

/-- Publish for `R1` with child list `[U1]` while `U1`, `U2` exist. -/
def bodyU1 : Obj :=
  [("row_id", Val.vStr "R1"),
   ("processes", Val.vList [Val.vObj [("UID", Val.vStr "U1")]])]

/-- Sheet with the soft-delete columns present on both tabs. -/
def sheetFull : Sheet :=
  { main := { header := ["ID", "is_deleted", "deleted_at", "updated_at"],
              rows := [[Val.vStr "R0"], [Val.vStr "R1", Val.vStr "x"]] },
    procs := { header := ["ID", "PID", "UID", "is_deleted", "deleted_at", "updated_at"],
               rows := [[Val.vStr "R1", Val.vStr "P1", Val.vStr "U1"],
                        [Val.vStr "R1", Val.vStr "P2", Val.vStr "U2"]] } }

def genIdCx : Nat → String := fun i => "ID000" ++ toString i

def jsonNone : String → Option Val := fun _ => none

/-- `main.py` config mirroring its defaults. -/
def mCfg : Mainpy.MConfig :=
  { row_key_payload := "RowID", main_key_col := "RowID",
    sub_key_col := "process_uid", sub_fk_col := "RowID",
    processes_key := "processes", proc_id_payload_key := "process_uid",
    main_mapping := [("RowID", "RowID"), ("Qty", "Qty")], sub_mapping := [],
    main_updated_at_col := "", main_deleted_col := "is_deleted",
    main_deleted_at_col := "deleted_at", sub_updated_at_col := "",
    sub_deleted_col := "is_deleted", sub_deleted_at_col := "deleted_at",
    auto_add := false }

/-- One parent row `R1` with one recorded child `U2`. -/
def mSheet : Sheet :=
  { main := { header := ["RowID", "Qty"], rows := [[Val.vStr "R1", Val.vStr "1"]] },
    procs := { header := ["RowID", "process_uid", "is_deleted", "deleted_at"],
               rows := [[Val.vStr "R1", Val.vStr "U2"]] } }

/-- Parent-only payload: the child-list key is absent entirely. -/
def mBody : Obj := [("RowID", Val.vStr "R1"), ("Qty", Val.vStr "5")]

def m2Cfg : Mainpy.MConfig :=
  { mCfg with main_mapping := [("RowID", "RowID"), ("A", "A"), ("B", "B")] }

/-- Existing main row with A=1, B=2. -/
def m2Sheet : Sheet :=
  { main := { header := ["RowID", "A", "B"],
              rows := [[Val.vStr "R1", Val.vStr "1", Val.vStr "2"]] },
    procs := { header := ["RowID", "process_uid"], rows := [] } }

/-- Payload mentioning only mapped field A. -/
def m2Body : Obj := [("RowID", Val.vStr "R1"), ("A", Val.vStr "9")]

/-- Empty main tab (key `R9` does not exist). -/
def m8Sheet : Sheet :=
  { main := { header := ["RowID", "Qty", "is_deleted", "deleted_at"], rows := [] },
    procs := { header := ["RowID", "process_uid"], rows := [] } }

/-- All mapped fields blank and no processes: `main.py` infers delete. -/
def m8Body : Obj := [("RowID", Val.vStr "R9")]

/-- Delete-flagged payload for the existing key `R1`, no child-list key. -/
def c4Body : Obj := [("row_id", Val.vStr "R1"), ("is_deleted", Val.vStr "yes")]

/-- Delete-flagged payload for the non-existent key `R9`, no child-list key. -/
def c8Body : Obj := [("row_id", Val.vStr "R9"), ("is_deleted", Val.vStr "yes")]

/-- Payload carrying the child-list key as an explicit empty list. -/
def c1Body : Obj := [("row_id", Val.vStr "R1"), ("processes", Val.vList [])]

end Cx

/-! # Theorems -/

namespace QMS

theorem a1Decode_append (cs : List Char) (c : Char) :
    a1Decode (cs ++ [c]) = a1Decode cs * 26 + (c.toNat - 64) := by
  simp [a1Decode]

theorem toNat_ofNat_small (m : Nat) (h : m < 256) : (Char.ofNat m).toNat = m := by
  have hv : Nat.isValidChar m := Or.inl (lt_trans h (by norm_num))
  simp [Char.ofNat, hv, Char.toNat, Char.ofNatAux, UInt32.toNat, BitVec.toNat_ofNatLt]

theorem a1Decode_a1ColChars (n : Nat) : a1Decode (a1ColChars n) = n := by
  induction n using Nat.strong_induction_on with
  | _ n ih =>
    match n with
    | 0 => simp [a1ColChars, a1Decode]
    | Nat.succ m =>
      rw [a1ColChars, a1Decode_append,
        ih (m / 26) (Nat.lt_succ_of_le (Nat.div_le_self _ _)),
        toNat_ofNat_small (65 + m % 26) (by omega)]
      omega

theorem a1ColChars_injective (m n : Nat) (h : a1ColChars m = a1ColChars n) : m = n := by
  have hm := a1Decode_a1ColChars m
  have hn := a1Decode_a1ColChars n
  rw [h, hn] at hm
  exact hm.symm

/-- C10: for every n ≥ 1 the column-label helper `a1_col` terminates (it is a
total function of the well-founded recursion above) and returns the bijective
base-26 alphabetic label (1 ↦ "A", 26 ↦ "Z", 27 ↦ "AA"), and it is injective
on positive integers, so distinct column indices address distinct A1
ranges. -/
theorem C10_a1_col_bijective :
    (a1_col 1 = "A" ∧ a1_col 26 = "Z" ∧ a1_col 27 = "AA") ∧
    (∀ m n : Nat, 1 ≤ m → 1 ≤ n → a1_col m = a1_col n → m = n) := by
  refine ⟨⟨by simp [a1_col, a1ColChars], by simp [a1_col, a1ColChars],
    by simp [a1_col, a1ColChars]⟩, ?_⟩
  intro m n _ _ h
  exact a1ColChars_injective m n (congrArg String.data h)

/-- C10 witness: the injectivity part applied at column index 27. -/
theorem C10_a1_col_bijective_witness : 1 ≤ 27 ∧ 27 = 27 :=
  ⟨by decide, C10_a1_col_bijective.2 27 27 (by decide) (by decide) rfl⟩

/-- C5 counterexample: the claim says delete intent is true whenever *any*
recognized key is present with a truthy value, but `get_flag` returns on the
*first* present key.  With recognized keys `["a", "b"]` and payload
`{"a": false, "b": true}`, the key `"b"` is present with boolean `true`, yet
`get_flag` is `false`. -/
theorem C5_counterexample_first_key_decides :
    lookupObj [("a", Val.vBool false), ("b", Val.vBool true)] "b" =
      some (Val.vBool true) ∧
    get_flag [("a", Val.vBool false), ("b", Val.vBool true)] ["a", "b"] = false :=
  ⟨rfl, rfl⟩

/-- C5 (amended): delete intent is decided by the *first* recognized
delete-flag key present in the payload: true iff its value is boolean `true`
or its trimmed, lowercased string form is one of "1"/"true"/"yes"/"y";
false when no recognized key is present.  In particular a flag value of
`"no"` is false, `"YES"` is true, and boolean `false` is false. -/
theorem C5_get_flag_first_present (obj : Obj) (keys : List String) :
    (get_flag obj keys =
      ((keys.findSome? (fun k => lookupObj obj k)).map truthyVal).getD false) ∧
    get_flag [("is_deleted", Val.vStr "no")] ["is_deleted"] = false ∧
    get_flag [("is_deleted", Val.vStr "YES")] ["is_deleted"] = true ∧
    get_flag [("is_deleted", Val.vBool false)] ["is_deleted"] = false := by
  refine ⟨?_, by decide, by decide, by decide⟩
  induction keys with
  | nil => simp [get_flag, List.findSome?]
  | cons k rest ih =>
    rw [get_flag, List.findSome?]
    cases h : lookupObj obj k with
    | none => simpa using ih
    | some v => cases v <;> simp [truthyVal, get_flag]

theorem mem_uniqAux (l : List String) :
    ∀ (seen : List String) (c : String),
    c ∈ uniqAux seen l ↔ (c ≠ "" ∧ c ∈ l ∧ c ∉ seen) := by
  induction l with
  | nil => simp [uniqAux]
  | cons x rest ih =>
    intro seen c
    rw [uniqAux]
    by_cases hx : x ≠ "" ∧ x ∉ seen
    · rw [if_pos hx]
      obtain ⟨hx1, hx2⟩ := hx
      simp only [List.mem_cons, ih]
      constructor
      · rintro (rfl | ⟨h1, h2, h3⟩)
        · exact ⟨hx1, Or.inl rfl, hx2⟩
        · exact ⟨h1, Or.inr h2, fun hc => h3 (Or.inr hc)⟩
      · rintro ⟨h1, h2 | h2, h3⟩
        · exact Or.inl h2
        · by_cases hcx : c = x
          · exact Or.inl hcx
          · exact Or.inr ⟨h1, h2, fun hc => hc.elim hcx h3⟩
    · rw [if_neg hx, ih]
      push_neg at hx
      constructor
      · rintro ⟨h1, h2, h3⟩
        exact ⟨h1, List.mem_cons_of_mem x h2, h3⟩
      · rintro ⟨h1, h2, h3⟩
        rcases List.mem_cons.mp h2 with h2 | h2
        · subst h2
          exact absurd (hx h1) h3
        · exact ⟨h1, h2, h3⟩

theorem mem_uniq (l : List String) (c : String) :
    c ∈ uniq l ↔ (c ≠ "" ∧ c ∈ l) := by
  rw [uniq, mem_uniqAux]
  simp

/-- C6 counterexample: with `required = [""]` and non-empty header `["A"]`,
the blank name `""` is a required column missing from the header, yet (auto
extension disabled) `ensure_columns` succeeds without failing and without
writing, because `uniq` silently drops falsy column names. -/
theorem C6_counterexample_blank_required_column :
    ("" ∈ ([""] : List String)) ∧ ("" ∉ (["A"] : List String)) ∧
    ensure_columns false "T" ⟨["A"], []⟩ [""] = (⟨["A"], []⟩, Except.ok ["A"]) :=
  ⟨by decide, by decide, rfl⟩

/-- C6 (amended): for every tab with a non-empty header, if some *non-blank*
required column is missing from the header then, with auto-extension
disabled, `ensure_columns` fails with the 400 schema-mismatch detail naming
the tab and the missing columns and returns the tab unwritten; with
auto-extension enabled it writes and returns the existing header with the
missing (deduplicated, non-blank) columns appended at the end. -/
theorem C6_ensure_columns_missing (tabName : String) (t : Tab) (required : List String)
    (hne : t.header ≠ []) (hmiss : ∃ c ∈ required, c ≠ "" ∧ c ∉ t.header) :
    (uniq required).filter (fun c => c ∉ t.header) ≠ [] ∧
    ensure_columns false tabName t required =
      (t, Except.error (schemaErr tabName ((uniq required).filter (fun c => c ∉ t.header)))) ∧
    ensure_columns true tabName t required =
      (⟨t.header ++ (uniq required).filter (fun c => c ∉ t.header), t.rows⟩,
       Except.ok (t.header ++ (uniq required).filter (fun c => c ∉ t.header))) := by
  obtain ⟨c, hc, hcne, hcnot⟩ := hmiss
  have hcu : c ∈ uniq required := (mem_uniq required c).mpr ⟨hcne, hc⟩
  have hm : c ∈ (uniq required).filter (fun c => c ∉ t.header) := by
    simp [List.mem_filter, hcu, hcnot]
  have hm' : (uniq required).filter (fun c => c ∉ t.header) ≠ [] := by
    intro h
    rw [h] at hm
    simp at hm
  refine ⟨hm', ?_, ?_⟩
  · simp only [ensure_columns]
    rw [if_neg hne, if_neg hm']
    simp
  · simp only [ensure_columns]
    rw [if_neg hne, if_neg hm']
    simp

/-- C6 witness: header `["A"]`, required `["B"]`. -/
theorem C6_ensure_columns_missing_witness :
    (uniq ["B"]).filter (fun c => c ∉ (["A"] : List String)) ≠ [] ∧
    ensure_columns false "T" ⟨["A"], []⟩ ["B"] =
      (⟨["A"], []⟩, Except.error (schemaErr "T"
        ((uniq ["B"]).filter (fun c => c ∉ (["A"] : List String))))) ∧
    ensure_columns true "T" ⟨["A"], []⟩ ["B"] =
      (⟨["A"] ++ (uniq ["B"]).filter (fun c => c ∉ (["A"] : List String)), []⟩,
       Except.ok (["A"] ++ (uniq ["B"]).filter (fun c => c ∉ (["A"] : List String)))) :=
  C6_ensure_columns_missing "T" ⟨["A"], []⟩ ["B"] (by simp)
    ⟨"B", by simp, by simp, by simp⟩

theorem findRowAux_eq_findIdx (idx : Nat) (target : String) (rows : List (List Val)) :
    ∀ r : Nat, findRowAux idx target r rows =
      (rows.findIdx? (fun row => pyStrip (pyStr (cellAt row idx)) == target)).map
        (fun i => i + r) := by
  induction rows with
  | nil => intro r; simp [findRowAux]
  | cons row rest ih =>
    intro r
    rw [findRowAux, List.findIdx?_cons]
    by_cases h : pyStrip (pyStr (cellAt row idx)) = target
    · simp [h]
    · simp only [beq_iff_eq, h, if_false, Nat.zero_add, List.findIdx?_succ, ih (r + 1),
        Option.map_map]
      cases List.findIdx? (fun row => pyStrip (pyStr (cellAt row idx)) == target) rest with
      | none => rfl
      | some k =>
        simp only [Option.map_some', Function.comp_apply, Option.some.injEq]
        omega

/-- C7 counterexample: in the `main.py` variant, a key column absent from the
headers makes `_find_row_by_key` return NotFound (`none`) instead of failing
with a key-column-missing error — even when a data row matches the key. -/
theorem C7_counterexample_missing_key_col_is_notfound :
    ("K" ∉ (["A", "B"] : List String)) ∧
    Mainpy.find_row_by_key ["A", "B"] "K" (Val.vStr "x")
      ⟨["A", "B"], [[Val.vStr "x"]]⟩ = none :=
  ⟨by decide, rfl⟩

/-- C7 (amended): when the key column is missing from the headers, the strict
variant's `find_row_num_by_key` fails with the key-column-missing error while
the `main.py` variant returns NotFound; when the key column is present, the
strict locator returns the 1-based sheet row number of the first data row
(top to bottom) whose cell at the key column's position trim-equals the
trimmed string form of the key value, or NotFound when no row matches. -/
theorem C7_row_locator (tabName : String) (headers : List String) (key_col : String)
    (key_value : Val) (t : Tab) :
    (key_col ∉ headers →
      find_row_num_by_key tabName headers key_col key_value t =
        Except.error (keyColErr key_col tabName) ∧
      Mainpy.find_row_by_key headers key_col key_value t = none) ∧
    (key_col ∈ headers →
      find_row_num_by_key tabName headers key_col key_value t =
        Except.ok ((t.rows.findIdx? (fun row =>
          pyStrip (pyStr (cellAt row (headers.indexOf key_col))) ==
            pyStrip (pyStr key_value))).map (fun i => i + 2))) := by
  constructor
  · intro h
    exact ⟨by simp [find_row_num_by_key, h], by simp [Mainpy.find_row_by_key, h]⟩
  · intro h
    simp [find_row_num_by_key, h, findRowAux_eq_findIdx]

/-- C1 counterexample: in the `main.py` variant the child block's
inferred-delete step runs unconditionally, so a payload with **no** child-list
field at all (here `lookupObj body "processes" = none`) still soft-deletes the
recorded child `U2` of parent `R1` and returns a deleted count of 1 — not
"counts all zero, children untouched". -/
theorem C1_counterexample_absent_child_list_still_deletes :
    lookupObj Cx.mBody Cx.mCfg.processes_key = none ∧
    (Mainpy.publish Cx.mCfg "T1" Cx.mBody Cx.mSheet).2 =
      Except.ok ⟨"R1", "update", 0, 0, 1, "T1"⟩ ∧
    Cx.mSheet.procs.rows = [[Val.vStr "R1", Val.vStr "U2"]] ∧
    (Mainpy.publish Cx.mCfg "T1" Cx.mBody Cx.mSheet).1.procs.rows =
      [[Val.vStr "R1", Val.vStr "U2", Val.vBool true, Val.vStr "T1"]] :=
  ⟨rfl, rfl, rfl, rfl⟩

/-- C3 counterexample: in the strict variant with `AUTO_ADD_COLUMNS=false`
and a child tab lacking the soft-delete columns, the inferred delete of the
removed child `U2` is *counted* (`deleted = 1`) and its row is rewritten, but
no soft-delete flag or timestamp cell is set — only `updated_at` changes, and
the header still has no soft-delete column at all. -/
theorem C3_counterexample_no_soft_columns :
    Cx.cfgStrict.auto_add = false ∧
    Cx.cfgStrict.soft_col ∉ Cx.sheetNoSoft.procs.header ∧
    (publish Cx.cfgStrict "T1" Cx.genIdCx Cx.jsonNone Cx.bodyU1 Cx.sheetNoSoft).2 =
      Except.ok ⟨"R1", "update", 0, 1, 1, "T1"⟩ ∧
    (publish Cx.cfgStrict "T1" Cx.genIdCx Cx.jsonNone Cx.bodyU1 Cx.sheetNoSoft).1.procs.header =
      ["ID", "PID", "UID", "updated_at"] ∧
    (publish Cx.cfgStrict "T1" Cx.genIdCx Cx.jsonNone Cx.bodyU1 Cx.sheetNoSoft).1.procs.rows =
      [[Val.vStr "R1", Val.vStr "P1", Val.vStr "U1", Val.vStr "T1"],
       [Val.vStr "R1", Val.vStr "P2", Val.vStr "U2", Val.vStr "T1"]] :=
  ⟨rfl, by decide, rfl, rfl, rfl⟩

/-- C8 counterexample: in the `main.py` variant, delete intent (inferred from
the all-blank snapshot with no processes) with no existing row yields main
action `"noop_delete"`, not `"soft_delete"` (no write is performed). -/
theorem C8_counterexample_noop_delete_action :
    (Mainpy.publish Cx.mCfg "T1" Cx.m8Body Cx.m8Sheet).2 =
      Except.ok ⟨"R9", "noop_delete", 0, 0, 0, "T1"⟩ ∧
    (Mainpy.publish Cx.mCfg "T1" Cx.m8Body Cx.m8Sheet).1 = Cx.m8Sheet ∧
    "noop_delete" ≠ "soft_delete" :=
  ⟨rfl, rfl, by decide⟩

theorem getD_set_ne (l : List Val) (j i : Nat) (a d : Val) (h : j ≠ i) :
    (l.set j a).getD i d = l.getD i d := by
  simp [List.getD, List.getElem?_set_ne h]

/-- One fold step of `patch_row` leaves length and any non-targeted cell
unchanged. -/
theorem patch_row_frame_aux (headers : List String) (payload : Obj) (i : Nat) :
    ∀ (mapping : List (String × String)) (current : List Val),
    (∀ pm ∈ mapping, pm.2 ∈ headers → headers.indexOf pm.2 = i →
        ∀ v, lookupObj payload pm.1 = some v → v = Val.vNull) →
    (patch_row headers current payload mapping).length = current.length ∧
    (patch_row headers current payload mapping).getD i (Val.vStr "") =
      current.getD i (Val.vStr "") := by
  intro mapping
  induction mapping with
  | nil => exact fun current _ => ⟨rfl, rfl⟩
  | cons pm rest ih =>
    intro current h
    have hrest : ∀ cur, (patch_row headers cur payload rest).length = cur.length ∧
        (patch_row headers cur payload rest).getD i (Val.vStr "") =
          cur.getD i (Val.vStr "") :=
      fun cur => ih cur (fun q hq => h q (List.mem_cons_of_mem pm hq))
    by_cases hmem : pm.2 ∈ headers
    · cases hv : lookupObj payload pm.1 with
      | none =>
        have hstep : patch_row headers current payload (pm :: rest) =
            patch_row headers current payload rest := by
          simp [patch_row, hmem, hv]
        rw [hstep]
        exact hrest current
      | some v =>
        by_cases hnull : v.isNull = true
        · have hstep : patch_row headers current payload (pm :: rest) =
              patch_row headers current payload rest := by
            simp [patch_row, hmem, hv, hnull]
          rw [hstep]
          exact hrest current
        · have hstep : patch_row headers current payload (pm :: rest) =
              patch_row headers (current.set (headers.indexOf pm.2) v) payload rest := by
            simp [patch_row, hmem, hv, hnull]
          have hne : headers.indexOf pm.2 ≠ i := by
            intro hidx
            have := h pm (List.mem_cons_self pm rest) hmem hidx v hv
            rw [this] at hnull
            exact hnull rfl
          rw [hstep]
          obtain ⟨hl, hg⟩ := hrest (current.set (headers.indexOf pm.2) v)
          refine ⟨by rw [hl, List.length_set], ?_⟩
          rw [hg, getD_set_ne _ _ _ _ _ hne]
    · have hstep : patch_row headers current payload (pm :: rest) =
          patch_row headers current payload rest := by
        simp [patch_row, hmem]
      rw [hstep]
      exact hrest current

/-- C2 counterexample: in the `main.py` variant the update path is
`_row_to_values`, which rebuilds the full row from the payload alone.  With
an existing main row `A=1, B=2` and a payload that carries only the mapped
field `A=9` (key `B` absent), the published row is `A=9, B=""` — the omitted
mapped field `B` **did** overwrite the existing cell `2`. -/
theorem C2_counterexample_update_overwrites_omitted_field :
    lookupObj Cx.m2Body "B" = none ∧
    Cx.m2Sheet.main.rows = [[Val.vStr "R1", Val.vStr "1", Val.vStr "2"]] ∧
    (Mainpy.publish Cx.m2Cfg "T1" Cx.m2Body Cx.m2Sheet).2 =
      Except.ok ⟨"R1", "update", 0, 0, 0, "T1"⟩ ∧
    (Mainpy.publish Cx.m2Cfg "T1" Cx.m2Body Cx.m2Sheet).1.main.rows =
      [[Val.vStr "R1", Val.vStr "9", Val.vStr ""]] ∧
    Val.vStr "" ≠ Val.vStr "2" :=
  ⟨rfl, rfl, rfl, rfl, by simp⟩

/-- C2 (amended, strict variant): `patch_row` — the patch operation of the
`app.py` update path — changes only the cells whose column is the mapping
target of a payload key present with a non-null value: the row keeps its
length, and every cell at an index that is not the header index of such a
target keeps its current stored value.  With headers `[A, B]`, an existing
row `[a, b]` and a payload carrying only `A = 9`, the result is `[9, b]`.
(The `main.py` variant's update path rebuilds the row from the payload and
clears omitted fields, per the counterexample.) -/
theorem C2_patch_row_partial_update (headers : List String) (current : List Val)
    (payload : Obj) (mapping : List (String × String))
    (hlen : current.length = headers.length) (i : Nat)
    (hframe : ∀ pm ∈ mapping, pm.2 ∈ headers → headers.indexOf pm.2 = i →
        ∀ v, lookupObj payload pm.1 = some v → v = Val.vNull) :
    ((patch_row headers current payload mapping).length = current.length ∧
     (patch_row headers current payload mapping).getD i (Val.vStr "") =
       current.getD i (Val.vStr "")) ∧
    ∀ a b : Val,
      patch_row ["A", "B"] [a, b] [("A", Val.vInt 9)] [("A", "A"), ("B", "B")] =
        [Val.vInt 9, b] :=
  ⟨patch_row_frame_aux headers payload i mapping current hframe, fun _ _ => rfl⟩

/-- C2 witness: headers `[A, B]`, row `[1, 2]`, payload `{A: 9}`, cell index 1
(column B, not targeted by any present non-null payload key). -/
theorem C2_patch_row_partial_update_witness :
    ((patch_row ["A", "B"] [Val.vStr "1", Val.vStr "2"] [("A", Val.vInt 9)]
        [("A", "A"), ("B", "B")]).length = [Val.vStr "1", Val.vStr "2"].length ∧
     (patch_row ["A", "B"] [Val.vStr "1", Val.vStr "2"] [("A", Val.vInt 9)]
        [("A", "A"), ("B", "B")]).getD 1 (Val.vStr "") =
       [Val.vStr "1", Val.vStr "2"].getD 1 (Val.vStr "")) ∧
    patch_row ["A", "B"] [Val.vStr "x", Val.vStr "y"] [("A", Val.vInt 9)]
        [("A", "A"), ("B", "B")] = [Val.vInt 9, Val.vStr "y"] := by
  have happ := C2_patch_row_partial_update ["A", "B"] [Val.vStr "1", Val.vStr "2"]
    [("A", Val.vInt 9)] [("A", "A"), ("B", "B")] (by simp) 1
    (by
      intro pm hpm hmem hidx v hv
      rcases List.mem_cons.mp hpm with rfl | hpm2
      · simp [List.indexOf, List.findIdx, List.findIdx.go] at hidx
      · rcases List.mem_cons.mp hpm2 with rfl | hpm3
        · simp [lookupObj] at hv
        · simp at hpm3)
  exact ⟨happ.1, happ.2 (Val.vStr "x") (Val.vStr "y")⟩

/-- C7 witness: key column present, matching first data row found at sheet
row 2; key column missing handled by the first conjunct. -/
theorem C7_row_locator_witness :
    find_row_num_by_key "T" ["K"] "K" (Val.vStr " x ")
      ⟨["K"], [[Val.vStr "x"]]⟩ =
      Except.ok (((Tab.mk ["K"] [[Val.vStr "x"]]).rows.findIdx? (fun row =>
        pyStrip (pyStr (cellAt row ((["K"] : List String).indexOf "K"))) ==
          pyStrip (pyStr (Val.vStr " x ")))).map (fun i => i + 2)) :=
  (C7_row_locator "T" ["K"] "K" (Val.vStr " x ") ⟨["K"], [[Val.vStr "x"]]⟩).2 (by simp)

/-! ## Infrastructure for the `/publish` theorems -/

/-- When every required (deduplicated, non-blank) column is already in the
non-empty header, `ensure_columns` is a no-op returning the stored header. -/
theorem ensure_noop (autoAdd : Bool) (tabName : String) (t : Tab) (required : List String)
    (hne : t.header ≠ []) (hsub : ∀ c ∈ uniq required, c ∈ t.header) :
    ensure_columns autoAdd tabName t required = (t, Except.ok t.header) := by
  have hfil : (uniq required).filter (fun c => c ∉ t.header) = [] := by
    rw [List.filter_eq_nil]
    intro c hc
    simp [hsub c hc]
  simp only [ensure_columns]
  rw [if_neg hne, if_pos hfil]

theorem ensure_columns_rows (autoAdd : Bool) (tabName : String) (t : Tab)
    (required : List String) :
    (ensure_columns autoAdd tabName t required).1.rows = t.rows := by
  simp only [ensure_columns]
  split
  · rfl
  · split
    · rfl
    · split
      · rfl
      · rfl

/-- `mainPhase` never touches the processes tab. -/
theorem mainPhase_procs (cfg : Config) (now : String) (body : Obj) (rid : String)
    (mh : List String) (s : Sheet) :
    ((mainPhase cfg now body rid mh s).1).procs = s.procs := by
  unfold mainPhase
  split
  · rfl
  · split
    · split
      · split
        · rfl
        · rfl
      · rfl
    · split
      · split
        · split
          · rfl
          · rfl
        · rfl
      · split
        · split
          · rfl
          · rfl
        · rfl

theorem uniq_append_subset (cols headers : List String)
    (h : ∀ c ∈ cols, c ∈ headers) :
    ∀ c ∈ uniq (cols ++ headers), c ∈ headers := by
  intro c hc
  rw [mem_uniq] at hc
  rcases List.mem_append.mp hc.2 with h1 | h1
  · exact h c h1
  · exact h1

/-- Under already-present soft-delete columns the shared soft-delete block
succeeds without touching the tab or the headers. -/
theorem applyChildSoftDelete_ok (cfg : Config) (now : String) (t : Tab)
    (headers : List String) (row : List Val) (p_del : Bool)
    (hhead : t.header = headers) (hne : headers ≠ [])
    (hsoft : cfg.soft_col ∈ headers) (hsoftat : cfg.soft_at_col ∈ headers) :
    ∃ r', applyChildSoftDelete cfg now t headers row p_del =
      (t, Except.ok (headers, r')) := by
  cases p_del with
  | false => exact ⟨row, rfl⟩
  | true =>
    have hens : ensure_columns cfg.auto_add cfg.proc_tab t
        ([cfg.soft_col, cfg.soft_at_col] ++ headers) = (t, Except.ok t.header) := by
      apply ensure_noop
      · rw [hhead]; exact hne
      · intro c hc
        rw [hhead]
        refine uniq_append_subset _ _ ?_ c hc
        intro c' hc'
        rcases List.mem_cons.mp hc' with rfl | hc''
        · exact hsoft
        · rcases List.mem_cons.mp hc'' with rfl | hc'''
          · exact hsoftat
          · simp at hc'''
    simp only [applyChildSoftDelete, if_true, hens, hhead]
    exact ⟨_, rfl⟩

/-- Characterization of a successful child-loop iteration when the soft
delete columns are present, the stored child header matches the running
header list, and the incoming child has a non-blank `UID`. -/
theorem childStep_ok (cfg : Config) (now : String) (genId : Nat → String) (rid : String)
    (existing : List (String × Nat)) (acc : ChildAcc) (p : Obj) (s : Sheet)
    (hhead : s.procs.header = acc.headers) (hne : acc.headers ≠ [])
    (hsoft : cfg.soft_col ∈ acc.headers) (hsoftat : cfg.soft_at_col ∈ acc.headers)
    (hfk2 : cfg.proc_fk_col ∈ acc.headers) (hpk2 : cfg.proc_pk_col ∈ acc.headers)
    (huid : uidOf p ≠ "") :
    ∃ acc' s',
      childStep cfg now genId rid existing acc p s = (s', Except.ok acc') ∧
      acc'.headers = acc.headers ∧
      s'.main = s.main ∧
      s'.procs.header = s.procs.header ∧
      s.procs.rows <+: s'.procs.rows ∧
      acc'.incoming = acc.incoming ++ [uidOf p] ∧
      ((acc'.updates = acc.updates ∧ dlookup existing (uidOf p) = none) ∨
       (∃ rnum vals, dlookup existing (uidOf p) = some rnum ∧
          acc'.updates = acc.updates ++ [⟨TabId.procs, rnum, vals⟩])) := by
  cases hl : lookupObj p "UID" with
  | none =>
    exfalso
    apply huid
    simp [uidOf, hl]
    rfl
  | some uv =>
    have huv : uidOf p = pyStrip (pyStr uv) := by simp [uidOf, hl]
    have hsne : ¬ (pyStrip (pyStr uv) = "") := by rw [← huv]; exact huid
    rcases hstep0 : childStep cfg now genId rid existing acc p s with ⟨s1, res⟩
    have hstep := hstep0
    simp only [childStep, hl] at hstep
    rw [if_neg hsne] at hstep
    cases hdl : dlookup existing (pyStrip (pyStr uv)) with
    | some rnum =>
      simp only [hdl] at hstep
      split at hstep
      case h_1 t1 e heq =>
        obtain ⟨r', happ⟩ := applyChildSoftDelete_ok cfg now s.procs acc.headers _
          (get_flag p cfg.delete_flag_keys) hhead hne hsoft hsoftat
        rw [happ] at heq
        exact absurd heq.symm (by simp)
      case h_2 t1 ph1 patched1 heq =>
        obtain ⟨r', happ⟩ := applyChildSoftDelete_ok cfg now s.procs acc.headers _
          (get_flag p cfg.delete_flag_keys) hhead hne hsoft hsoftat
        rw [happ] at heq
        obtain ⟨ht1, hph, hpa⟩ : t1 = s.procs ∧ ph1 = acc.headers ∧ patched1 = r' := by
          simpa using heq.symm
        subst ht1 hph hpa
        injection hstep with hs1 hres
        subst hres
        subst hs1
        refine ⟨_, _, rfl, ?_, ?_, ?_, ?_, ?_, ?_⟩
        · rfl
        · rfl
        · rfl
        · exact List.prefix_rfl
        · simp [huv]
        · right
          exact ⟨rnum, _, by rw [huv]; exact hdl, rfl⟩
    | none =>
      simp only [hdl] at hstep
      rw [if_neg (by simp [hfk2]), if_neg (by simp [hpk2])] at hstep
      split at hstep
      case h_1 t1 e heq =>
        obtain ⟨r', happ⟩ := applyChildSoftDelete_ok cfg now s.procs acc.headers _
          (get_flag p cfg.delete_flag_keys) hhead hne hsoft hsoftat
        rw [happ] at heq
        exact absurd heq.symm (by simp)
      case h_2 t1 ph1 patched1 heq =>
        obtain ⟨r', happ⟩ := applyChildSoftDelete_ok cfg now s.procs acc.headers _
          (get_flag p cfg.delete_flag_keys) hhead hne hsoft hsoftat
        rw [happ] at heq
        obtain ⟨ht1, hph, hpa⟩ : t1 = s.procs ∧ ph1 = acc.headers ∧ patched1 = r' := by
          simpa using heq.symm
        subst ht1 hph hpa
        injection hstep with hs1 hres
        subst hres
        subst hs1
        refine ⟨_, _, rfl, ?_, ?_, ?_, ?_, ?_, ?_⟩
        · rfl
        · rfl
        · rfl
        · exact ⟨_, rfl⟩
        · simp [huv]
        · left
          exact ⟨rfl, by rw [huv]; exact hdl⟩

/-- Characterization of a successful child loop: state for the main tab and
the child header untouched, child rows only appended, the incoming-UID list
extended by the loop's UIDs in order, and every new staged update targeting
the recorded row of one of the incoming UIDs. -/
theorem childLoop_ok (cfg : Config) (now : String) (genId : Nat → String) (rid : String)
    (existing : List (String × Nat)) (ps : List Obj) :
    ∀ (acc : ChildAcc) (s : Sheet),
    s.procs.header = acc.headers → acc.headers ≠ [] →
    cfg.soft_col ∈ acc.headers → cfg.soft_at_col ∈ acc.headers →
    (ps ≠ [] → cfg.proc_fk_col ∈ acc.headers ∧ cfg.proc_pk_col ∈ acc.headers) →
    (∀ p ∈ ps, uidOf p ≠ "") →
    ∃ acc' s',
      childLoop cfg now genId rid existing ps acc s = (s', Except.ok acc') ∧
      acc'.headers = acc.headers ∧
      s'.main = s.main ∧
      s'.procs.header = s.procs.header ∧
      s.procs.rows <+: s'.procs.rows ∧
      acc'.incoming = acc.incoming ++ ps.map uidOf ∧
      (∀ u ∈ acc'.updates, u ∈ acc.updates ∨
        (u.tab = TabId.procs ∧
         ∃ uid ∈ ps.map uidOf, dlookup existing uid = some u.row)) := by
  induction ps with
  | nil =>
    intro acc s hhead hne hsoft hsoftat _ _
    exact ⟨acc, s, rfl, rfl, rfl, rfl, List.prefix_rfl, by simp, fun u hu => Or.inl hu⟩
  | cons p rest ih =>
    intro acc s hhead hne hsoft hsoftat hcols hgood
    obtain ⟨hfk2, hpk2⟩ := hcols (by simp)
    obtain ⟨acc1, s1, hstep, hh1, hm1, hph1, hpre1, hinc1, hupd1⟩ :=
      childStep_ok cfg now genId rid existing acc p s hhead hne hsoft hsoftat hfk2 hpk2
        (hgood p (List.mem_cons_self p rest))
    obtain ⟨acc', s', hloop, hh2, hm2, hph2, hpre2, hinc2, hupd2⟩ :=
      ih acc1 s1 (by rw [hph1, hhead, hh1]) (by rw [hh1]; exact hne)
        (by rw [hh1]; exact hsoft) (by rw [hh1]; exact hsoftat)
        (fun _ => ⟨by rw [hh1]; exact hfk2, by rw [hh1]; exact hpk2⟩)
        (fun q hq => hgood q (List.mem_cons_of_mem p hq))
    refine ⟨acc', s', ?_, ?_, ?_, ?_, ?_, ?_, ?_⟩
    · simp only [childLoop, hstep]
      exact hloop
    · rw [hh2, hh1]
    · rw [hm2, hm1]
    · rw [hph2, hph1]
    · exact hpre1.trans hpre2
    · rw [hinc2, hinc1]
      simp
    · intro u hu
      rcases hupd2 u hu with hu1 | ⟨htab, uid, huidmem, hdlk⟩
      · rcases hupd1 with ⟨heqv, -⟩ | ⟨rnum, vals, hdlk, heqv⟩
        · rw [heqv] at hu1
          exact Or.inl hu1
        · rw [heqv] at hu1
          rcases List.mem_append.mp hu1 with hu2 | hu2
          · exact Or.inl hu2
          · simp only [List.mem_singleton] at hu2
            subst hu2
            exact Or.inr ⟨rfl, uidOf p, by simp, hdlk⟩
      · exact Or.inr ⟨htab, uid, by simp [huidmem], hdlk⟩

theorem set_cell_length (headers : List String) (row : List Val) (col : String) (v : Val) :
    (set_cell headers row col v).length = row.length := by
  unfold set_cell
  split
  · exact List.length_set ..
  · rfl

theorem getD_set_self (l : List Val) (i : Nat) (a d : Val) (h : i < l.length) :
    (l.set i a).getD i d = a := by
  simp [List.getD, List.getElem?_set_self h]

theorem set_cell_getD_self (headers : List String) (row : List Val) (col : String) (v d : Val)
    (hmem : col ∈ headers) (hlen : headers.length ≤ row.length) :
    (set_cell headers row col v).getD (headers.indexOf col) d = v := by
  unfold set_cell
  rw [if_pos hmem]
  exact getD_set_self _ _ _ _ (lt_of_lt_of_le (List.indexOf_lt_length.mpr hmem) hlen)

theorem set_cell_getD_ne (headers : List String) (row : List Val) (col : String) (v d : Val)
    (i : Nat) (hi : headers.indexOf col ≠ i) :
    (set_cell headers row col v).getD i d = row.getD i d := by
  unfold set_cell
  split
  · exact getD_set_ne _ _ _ _ _ hi
  · rfl

theorem indexOf_ne_of_mem_ne (l : List String) (a b : String) (ha : a ∈ l) (hab : a ≠ b) :
    l.indexOf a ≠ l.indexOf b := by
  intro h
  by_cases hb : b ∈ l
  · exact hab ((List.indexOf_inj ha hb).mp h)
  · have h1 : l.indexOf a < l.length := List.indexOf_lt_length.mpr ha
    have h2 : l.indexOf b = l.length := List.indexOf_eq_length.mpr hb
    omega

theorem get_row_values_length (t : Tab) (rnum width : Nat) :
    (get_row_values t rnum width).length = width := by
  simp [get_row_values]

theorem batch_update_append (s : Sheet) (u1 u2 : List Upd) :
    batch_update s (u1 ++ u2) = batch_update (batch_update s u1) u2 := by
  simp [batch_update, List.foldl_append]

theorem batch_update_cons_main (s : Sheet) (u : Upd) (rest : List Upd)
    (hu : u.tab = TabId.main) :
    batch_update s (u :: rest) =
      batch_update { s with main := writeRowRange s.main u.row u.vals } rest := by
  rw [batch_update, List.foldl_cons, hu]
  rfl

theorem batch_update_cons_procs (s : Sheet) (u : Upd) (rest : List Upd)
    (hu : u.tab = TabId.procs) :
    batch_update s (u :: rest) =
      batch_update { s with procs := writeRowRange s.procs u.row u.vals } rest := by
  rw [batch_update, List.foldl_cons, hu]
  rfl

theorem batch_update_main_eq (s : Sheet) (upds : List Upd)
    (h : ∀ u ∈ upds, u.tab = TabId.procs) :
    (batch_update s upds).main = s.main := by
  induction upds generalizing s with
  | nil => rfl
  | cons u rest ih =>
    rw [batch_update_cons_procs s u rest (h u (List.mem_cons_self u rest))]
    exact ih _ (fun q hq => h q (List.mem_cons_of_mem u hq))

theorem batch_update_procs_eq (s : Sheet) (upds : List Upd)
    (h : ∀ u ∈ upds, u.tab = TabId.main) :
    (batch_update s upds).procs = s.procs := by
  induction upds generalizing s with
  | nil => rfl
  | cons u rest ih =>
    rw [batch_update_cons_main s u rest (h u (List.mem_cons_self u rest))]
    exact ih _ (fun q hq => h q (List.mem_cons_of_mem u hq))

theorem batch_update_headers (s : Sheet) (upds : List Upd) :
    (batch_update s upds).main.header = s.main.header ∧
    (batch_update s upds).procs.header = s.procs.header := by
  induction upds generalizing s with
  | nil => exact ⟨rfl, rfl⟩
  | cons u rest ih =>
    cases hu : u.tab
    case main =>
      rw [batch_update_cons_main s u rest hu]
      exact ih _
    case procs =>
      rw [batch_update_cons_procs s u rest hu]
      exact ih _

theorem batch_update_rows_length (s : Sheet) (upds : List Upd) :
    (batch_update s upds).main.rows.length = s.main.rows.length ∧
    (batch_update s upds).procs.rows.length = s.procs.rows.length := by
  induction upds generalizing s with
  | nil => exact ⟨rfl, rfl⟩
  | cons u rest ih =>
    cases hu : u.tab
    case main =>
      rw [batch_update_cons_main s u rest hu]
      obtain ⟨h1, h2⟩ := ih { s with main := writeRowRange s.main u.row u.vals }
      exact ⟨h1.trans (List.length_set ..), h2⟩
    case procs =>
      rw [batch_update_cons_procs s u rest hu]
      obtain ⟨h1, h2⟩ := ih { s with procs := writeRowRange s.procs u.row u.vals }
      exact ⟨h1, h2.trans (List.length_set ..)⟩

theorem batch_update_procs_getD_untouched (s : Sheet) (upds : List Upd) (j : Nat)
    (h : ∀ u ∈ upds, u.tab = TabId.procs → u.row - 2 ≠ j) :
    (batch_update s upds).procs.rows.getD j [] = s.procs.rows.getD j [] := by
  induction upds generalizing s with
  | nil => rfl
  | cons u rest ih =>
    cases hu : u.tab
    case main =>
      rw [batch_update_cons_main s u rest hu]
      exact ih _ (fun q hq => h q (List.mem_cons_of_mem u hq))
    case procs =>
      rw [batch_update_cons_procs s u rest hu]
      rw [ih _ (fun q hq => h q (List.mem_cons_of_mem u hq))]
      have hne := h u (List.mem_cons_self u rest) hu
      simp only [writeRowRange, List.getD, List.get?_eq_getElem?]
      rw [List.getElem?_set_ne hne]

/-- The content of a row written once and not touched afterwards: the final
row starts with the staged values. -/
theorem batch_update_procs_getD_written (s : Sheet) (pre post : List Upd)
    (rnum : Nat) (vals : List Val)
    (hpost : ∀ u ∈ post, u.tab = TabId.procs → u.row - 2 ≠ rnum - 2)
    (hlen : rnum - 2 < s.procs.rows.length) :
    ∃ tail,
      (batch_update s (pre ++ ⟨TabId.procs, rnum, vals⟩ :: post)).procs.rows.getD
        (rnum - 2) [] = vals ++ tail := by
  rw [show pre ++ (⟨TabId.procs, rnum, vals⟩ : Upd) :: post =
      (pre ++ [⟨TabId.procs, rnum, vals⟩]) ++ post by simp]
  rw [batch_update_append, batch_update_append]
  rw [batch_update_procs_getD_untouched _ post _ hpost]
  set s1 := batch_update s pre with hs1
  have hlen1 : rnum - 2 < s1.procs.rows.length := by
    rw [(batch_update_rows_length s pre).2]
    exact hlen
  refine ⟨(s1.procs.rows.getD (rnum - 2) []).drop vals.length, ?_⟩
  show (batch_update s1 [⟨TabId.procs, rnum, vals⟩]).procs.rows.getD (rnum - 2) [] = _
  simp only [batch_update, List.foldl_cons, List.foldl_nil, writeRowRange]
  simp only [List.getD, List.get?_eq_getElem?]
  rw [List.getElem?_set_self hlen1]
  rfl

/-- Cell-level content of a soft-deleted row when the marker columns are
present and pairwise distinct. -/
theorem softDeleteRow_cells (cfg : Config) (now : String) (ph : List String)
    (current : List Val) (hlen : current.length = ph.length)
    (hsoft : cfg.soft_col ∈ ph) (hsoftat : cfg.soft_at_col ∈ ph)
    (hd1 : cfg.soft_col ≠ cfg.soft_at_col)
    (hd2 : cfg.updated_at_col ≠ cfg.soft_col)
    (hd3 : cfg.updated_at_col ≠ cfg.soft_at_col) :
    (softDeleteRow cfg now ph current).length = ph.length ∧
    (softDeleteRow cfg now ph current).getD (ph.indexOf cfg.soft_col) (Val.vStr "") =
      Val.vBool true ∧
    (softDeleteRow cfg now ph current).getD (ph.indexOf cfg.soft_at_col) (Val.vStr "") =
      Val.vStr now ∧
    (cfg.updated_at_col ≠ "" ∧ cfg.updated_at_col ∈ ph →
      (softDeleteRow cfg now ph current).getD (ph.indexOf cfg.updated_at_col) (Val.vStr "") =
        Val.vStr now) := by
  unfold softDeleteRow
  simp only [hsoft, hsoftat, if_true]
  have hidx1 : ph.indexOf cfg.soft_at_col ≠ ph.indexOf cfg.soft_col :=
    indexOf_ne_of_mem_ne ph _ _ hsoftat (Ne.symm hd1)
  have hc1len : (set_cell ph current cfg.soft_col (Val.vBool true)).length = ph.length := by
    rw [set_cell_length, hlen]
  have hc2len : (set_cell ph (set_cell ph current cfg.soft_col (Val.vBool true))
      cfg.soft_at_col (Val.vStr now)).length = ph.length := by
    rw [set_cell_length, hc1len]
  by_cases hup : cfg.updated_at_col ≠ "" ∧ cfg.updated_at_col ∈ ph
  · rw [if_pos hup]
    have hidx2 : ph.indexOf cfg.updated_at_col ≠ ph.indexOf cfg.soft_col :=
      indexOf_ne_of_mem_ne ph _ _ hup.2 hd2
    have hidx3 : ph.indexOf cfg.updated_at_col ≠ ph.indexOf cfg.soft_at_col :=
      indexOf_ne_of_mem_ne ph _ _ hup.2 hd3
    refine ⟨by rw [set_cell_length, hc2len], ?_, ?_, fun _ => ?_⟩
    · rw [set_cell_getD_ne _ _ _ _ _ _ hidx2, set_cell_getD_ne _ _ _ _ _ _ hidx1]
      exact set_cell_getD_self _ _ _ _ _ hsoft (le_of_eq hlen.symm)
    · rw [set_cell_getD_ne _ _ _ _ _ _ hidx3]
      exact set_cell_getD_self _ _ _ _ _ hsoftat (le_of_eq hc1len.symm)
    · exact set_cell_getD_self _ _ _ _ _ hup.2 (le_of_eq hc2len.symm)
  · rw [if_neg hup]
    refine ⟨hc2len, ?_, ?_, fun hc => absurd hc hup⟩
    · rw [set_cell_getD_ne _ _ _ _ _ _ hidx1]
      exact set_cell_getD_self _ _ _ _ _ hsoft (le_of_eq hlen.symm)
    · exact set_cell_getD_self _ _ _ _ _ hsoftat (le_of_eq hc1len.symm)

/-- Characterization of the removed-children loop: the count equals the
number of removed UIDs, every staged update targets the recorded row of a
removed UID, and for each removed UID the loop stages exactly one row whose
soft-delete flag, soft-delete timestamp and (when configured and present)
updated-at cells are set, with nothing later in the staged list touching that
row. -/
theorem removedLoop_char (cfg : Config) (now : String) (existing : List (String × Nat))
    (ph : List String) (s : Sheet)
    (hsoft : cfg.soft_col ∈ ph) (hsoftat : cfg.soft_at_col ∈ ph)
    (hd1 : cfg.soft_col ≠ cfg.soft_at_col)
    (hd2 : cfg.updated_at_col ≠ cfg.soft_col)
    (hd3 : cfg.updated_at_col ≠ cfg.soft_at_col) :
    ∀ removedL : List String, removedL.Nodup →
    (∀ uid ∈ removedL, (dlookup existing uid).isSome) →
    (removedLoop cfg now existing ph s removedL).2 = removedL.length ∧
    (∀ u ∈ (removedLoop cfg now existing ph s removedL).1,
       u.tab = TabId.procs ∧ ∃ uid ∈ removedL, dlookup existing uid = some u.row) ∧
    (∀ uid ∈ removedL, ∃ rnum vals pre post,
       dlookup existing uid = some rnum ∧
       (removedLoop cfg now existing ph s removedL).1 =
         pre ++ ⟨TabId.procs, rnum, vals⟩ :: post ∧
       (∀ u ∈ post, ∃ uid2 ∈ removedL, uid2 ≠ uid ∧ dlookup existing uid2 = some u.row) ∧
       vals.length = ph.length ∧
       vals.getD (ph.indexOf cfg.soft_col) (Val.vStr "") = Val.vBool true ∧
       vals.getD (ph.indexOf cfg.soft_at_col) (Val.vStr "") = Val.vStr now ∧
       (cfg.updated_at_col ≠ "" ∧ cfg.updated_at_col ∈ ph →
          vals.getD (ph.indexOf cfg.updated_at_col) (Val.vStr "") = Val.vStr now)) := by
  intro removedL
  induction removedL with
  | nil =>
    intro _ _
    exact ⟨rfl, by simp [removedLoop], by simp⟩
  | cons uid rest ih =>
    intro hnodup hsome
    obtain ⟨r, hr⟩ := Option.isSome_iff_exists.mp (hsome uid (List.mem_cons_self uid rest))
    obtain ⟨ihc, ihm, ihu⟩ := ih (List.nodup_cons.mp hnodup).2
      (fun q hq => hsome q (List.mem_cons_of_mem uid hq))
    have hstep : removedLoop cfg now existing ph s (uid :: rest) =
        (⟨TabId.procs, r,
           softDeleteRow cfg now ph (get_row_values s.procs r ph.length)⟩ ::
             (removedLoop cfg now existing ph s rest).1,
         (removedLoop cfg now existing ph s rest).2 + 1) := by
      rw [removedLoop, hr]
      rfl
    obtain ⟨hlenv, hvsoft, hvsoftat, hvupd⟩ := softDeleteRow_cells cfg now ph
      (get_row_values s.procs r ph.length) (get_row_values_length ..)
      hsoft hsoftat hd1 hd2 hd3
    refine ⟨?_, ?_, ?_⟩
    · rw [hstep]
      simp [ihc]
    · intro u hu
      rw [hstep] at hu
      rcases List.mem_cons.mp hu with rfl | hu2
      · exact ⟨rfl, uid, List.mem_cons_self uid rest, hr⟩
      · obtain ⟨ht, uid2, hm2, hd⟩ := ihm u hu2
        exact ⟨ht, uid2, List.mem_cons_of_mem uid hm2, hd⟩
    · intro q hq
      rcases List.mem_cons.mp hq with rfl | hq2
      · refine ⟨r, _, [], (removedLoop cfg now existing ph s rest).1, hr, ?_, ?_, hlenv,
          hvsoft, hvsoftat, hvupd⟩
        · rw [hstep]
          rfl
        · intro u hu
          obtain ⟨-, uid2, hm2, hd⟩ := ihm u hu
          refine ⟨uid2, List.mem_cons_of_mem q hm2, ?_, hd⟩
          intro he
          subst he
          exact (List.nodup_cons.mp hnodup).1 hm2
      · obtain ⟨rnum, vals, pre, post, hdq, heq, hpost, hl, h1, h2, h3⟩ := ihu q hq2
        refine ⟨rnum, vals,
          ⟨TabId.procs, r,
            softDeleteRow cfg now ph (get_row_values s.procs r ph.length)⟩ :: pre,
          post, hdq, ?_, ?_, hl, h1, h2, h3⟩
        · rw [hstep]
          simp [heq]
        · intro u hu
          obtain ⟨uid2, hm2, hne2, hd2q⟩ := hpost u hu
          exact ⟨uid2, List.mem_cons_of_mem uid hm2, hne2, hd2q⟩

theorem dlookup_mem (m : List (String × Nat)) (k : String) (v : Nat)
    (h : dlookup m k = some v) : (k, v) ∈ m := by
  unfold dlookup at h
  cases hf : m.find? (fun kv => kv.1 = k) with
  | none => rw [hf] at h; simp at h
  | some kv =>
    rw [hf] at h
    simp only [Option.map_some', Option.some.injEq] at h
    have hm := List.mem_of_find?_eq_some hf
    have hp := List.find?_some hf
    obtain ⟨a, b⟩ := kv
    simp only [decide_eq_true_eq] at hp
    subst hp
    subst h
    exact hm

theorem dlookup_isSome_of_mem_keys (m : List (String × Nat)) (k : String)
    (h : k ∈ m.map Prod.fst) : (dlookup m k).isSome := by
  obtain ⟨kv, hkv, hfst⟩ := List.mem_map.mp h
  unfold dlookup
  rw [Option.isSome_map']
  rw [List.find?_isSome]
  exact ⟨kv, hkv, by simp [hfst]⟩

theorem dinsertN_mem_self (m : List (String × Nat)) (k : String) (v : Nat) :
    (k, v) ∈ dinsertN m k v := by
  unfold dinsertN
  split
  case isTrue hany =>
    simp only [List.any_eq_true, decide_eq_true_eq] at hany
    obtain ⟨kv, hkv, hp⟩ := hany
    have hmem : (if kv.1 = k then (k, v) else kv) ∈
        m.map (fun kv => if kv.1 = k then (k, v) else kv) := List.mem_map_of_mem _ hkv
    rw [if_pos hp] at hmem
    exact hmem
  case isFalse => exact List.mem_append.mpr (Or.inr (by simp))

theorem dinsertN_mem_other (m : List (String × Nat)) (k : String) (v : Nat)
    (k' : String) (v' : Nat) (h : (k', v') ∈ m) (hne : k' ≠ k) :
    (k', v') ∈ dinsertN m k v := by
  unfold dinsertN
  split
  · have hmem : (if (k', v').1 = k then (k, v) else (k', v')) ∈
        m.map (fun kv => if kv.1 = k then (k, v) else kv) := List.mem_map_of_mem _ h
    rw [if_neg hne] at hmem
    exact hmem
  · exact List.mem_append.mpr (Or.inl h)

theorem ExistingInv_weaken (acc : List (String × Nat)) (b b' : Nat)
    (h : ExistingInv acc b) (hb : b ≤ b') : ExistingInv acc b' :=
  ⟨h.1, fun kv hkv => ⟨(h.2.1 kv hkv).1, lt_of_lt_of_le (h.2.1 kv hkv).2 hb⟩, h.2.2⟩

theorem ExistingInv_dinsertN (acc : List (String × Nat)) (k : String) (rnum : Nat)
    (hinv : ExistingInv acc rnum) (h2 : 2 ≤ rnum) :
    ExistingInv (dinsertN acc k rnum) (rnum + 1) := by
  obtain ⟨hnd, hbd, hdist⟩ := hinv
  unfold dinsertN
  split
  case isTrue hany =>
    refine ⟨?_, ?_, ?_⟩
    · have hkeys : (acc.map (fun kv => if kv.1 = k then (k, rnum) else kv)).map Prod.fst =
          acc.map Prod.fst := by
        rw [List.map_map]
        apply List.map_congr_left
        intro kv _
        by_cases hk : kv.1 = k
        · rw [Function.comp_apply, if_pos hk]
          simp [hk]
        · rw [Function.comp_apply, if_neg hk]
      rw [hkeys]
      exact hnd
    · intro kv hkv
      obtain ⟨kv0, hkv0, heq⟩ := List.mem_map.mp hkv
      by_cases hk : kv0.1 = k
      · rw [if_pos hk] at heq
        subst heq
        exact ⟨h2, Nat.lt_succ_self _⟩
      · rw [if_neg hk] at heq
        subst heq
        obtain ⟨hb1, hb2⟩ := hbd kv0 hkv0
        exact ⟨hb1, Nat.lt_succ_of_lt hb2⟩
    · intro kv1 h1 kv2 h2' hne
      obtain ⟨a1, ha1, he1⟩ := List.mem_map.mp h1
      obtain ⟨a2, ha2, he2⟩ := List.mem_map.mp h2'
      by_cases hk1 : a1.1 = k <;> by_cases hk2 : a2.1 = k
      · rw [if_pos hk1] at he1
        rw [if_pos hk2] at he2
        subst he1
        subst he2
        simp at hne
      · rw [if_pos hk1] at he1
        rw [if_neg hk2] at he2
        subst he1
        subst he2
        have := (hbd a2 ha2).2
        simp only [ne_eq]
        omega
      · rw [if_neg hk1] at he1
        rw [if_pos hk2] at he2
        subst he1
        subst he2
        have := (hbd a1 ha1).2
        simp only [ne_eq]
        omega
      · rw [if_neg hk1] at he1
        rw [if_neg hk2] at he2
        subst he1
        subst he2
        exact hdist a1 ha1 a2 ha2 hne
  case isFalse hany =>
    have hknot : k ∉ acc.map Prod.fst := by
      intro hk
      obtain ⟨kv, hkv, hfst⟩ := List.mem_map.mp hk
      exact hany (List.any_eq_true.mpr ⟨kv, hkv, by simp [hfst]⟩)
    refine ⟨?_, ?_, ?_⟩
    · rw [List.map_append]
      simp only [List.map_cons, List.map_nil]
      rw [List.nodup_append]
      exact ⟨hnd, List.nodup_singleton _, by simpa using hknot⟩
    · intro kv hkv
      rcases List.mem_append.mp hkv with h1 | h1
      · obtain ⟨hb1, hb2⟩ := hbd kv h1
        exact ⟨hb1, Nat.lt_succ_of_lt hb2⟩
      · simp only [List.mem_singleton] at h1
        subst h1
        exact ⟨h2, Nat.lt_succ_self _⟩
    · intro kv1 h1 kv2 h2' hne
      rcases List.mem_append.mp h1 with ha | ha <;>
        rcases List.mem_append.mp h2' with hb | hb
      · exact hdist kv1 ha kv2 hb hne
      · simp only [List.mem_singleton] at hb
        subst hb
        have := (hbd kv1 ha).2
        simp only [ne_eq]
        omega
      · simp only [List.mem_singleton] at ha
        subst ha
        have := (hbd kv2 hb).2
        simp only [ne_eq]
        omega
      · simp only [List.mem_singleton] at ha hb
        subst ha
        subst hb
        simp at hne

theorem buildExistingAux_inv (fk uidx : Nat) (rid : String) :
    ∀ (rows : List (List Val)) (acc : List (String × Nat)) (rnum : Nat),
    ExistingInv acc rnum → 2 ≤ rnum →
    ExistingInv (buildExistingAux fk uidx rid acc rnum rows) (rnum + rows.length) := by
  intro rows
  induction rows with
  | nil =>
    intro acc rnum h _
    simpa [buildExistingAux] using h
  | cons row rest ih =>
    intro acc rnum h h2
    have hb : rnum + 1 + rest.length = rnum + (row :: rest).length := by
      simp
      omega
    rw [buildExistingAux]
    split
    · rw [← hb]
      exact ih acc (rnum + 1) (ExistingInv_weaken _ _ _ h (Nat.le_succ _))
        (le_trans h2 (Nat.le_succ _))
    · split
      · rw [← hb]
        exact ih acc (rnum + 1) (ExistingInv_weaken _ _ _ h (Nat.le_succ _))
          (le_trans h2 (Nat.le_succ _))
      · rw [← hb]
        exact ih _ (rnum + 1) (ExistingInv_dinsertN acc _ rnum h h2)
          (le_trans h2 (Nat.le_succ _))

theorem buildExisting_inv (fk uidx : Nat) (rid : String) (rows : List (List Val)) :
    ExistingInv (buildExisting fk uidx rid rows) (2 + rows.length) :=
  buildExistingAux_inv fk uidx rid rows [] 2 ⟨List.nodup_nil, by simp, by simp⟩ le_rfl

theorem matchUids_cons_pos (fk uidx : Nat) (rid : String) (row : List Val)
    (rest : List (List Val)) (h1 : pyStrip (pyStr (cellAt row fk)) = rid)
    (h2 : pyStrip (pyStr (cellAt row uidx)) ≠ "") :
    matchUids fk uidx rid (row :: rest) =
      pyStrip (pyStr (cellAt row uidx)) :: matchUids fk uidx rid rest := by
  simp [matchUids, List.filter_cons, h1, h2]

theorem matchUids_cons_neg (fk uidx : Nat) (rid : String) (row : List Val)
    (rest : List (List Val))
    (h : ¬(pyStrip (pyStr (cellAt row fk)) = rid ∧ pyStrip (pyStr (cellAt row uidx)) ≠ "")) :
    matchUids fk uidx rid (row :: rest) = matchUids fk uidx rid rest := by
  simp only [matchUids, List.filter_cons]
  rw [if_neg (by simpa using h)]

theorem buildExistingAux_preserve (fk uidx : Nat) (rid : String) :
    ∀ (rows : List (List Val)) (acc : List (String × Nat)) (rnum : Nat)
      (k : String) (v : Nat),
    (k, v) ∈ acc → k ∉ matchUids fk uidx rid rows →
    (k, v) ∈ buildExistingAux fk uidx rid acc rnum rows := by
  intro rows
  induction rows with
  | nil =>
    intro acc rnum k v h _
    simpa [buildExistingAux] using h
  | cons row rest ih =>
    intro acc rnum k v h hknot
    rw [buildExistingAux]
    by_cases hfk : pyStrip (pyStr (cellAt row fk)) ≠ rid
    · rw [if_pos hfk]
      refine ih acc (rnum + 1) k v h ?_
      rwa [matchUids_cons_neg fk uidx rid row rest (fun hc => hfk hc.1)] at hknot
    · rw [if_neg hfk]
      push_neg at hfk
      by_cases huid : pyStrip (pyStr (cellAt row uidx)) = ""
      · rw [if_pos huid]
        refine ih acc (rnum + 1) k v h ?_
        rwa [matchUids_cons_neg fk uidx rid row rest (fun hc => hc.2 huid)] at hknot
      · rw [if_neg huid]
        rw [matchUids_cons_pos fk uidx rid row rest hfk huid] at hknot
        have hkne : k ≠ pyStrip (pyStr (cellAt row uidx)) := by
          intro he
          exact hknot (he ▸ List.mem_cons_self _ _)
        refine ih _ (rnum + 1) k v (dinsertN_mem_other _ _ _ _ _ h hkne) ?_
        exact fun hc => hknot (List.mem_cons_of_mem _ hc)

theorem buildExistingAux_complete (fk uidx : Nat) (rid : String) :
    ∀ (rows : List (List Val)) (acc : List (String × Nat)) (rnum : Nat),
    (matchUids fk uidx rid rows).Nodup →
    ∀ i, i < rows.length →
    pyStrip (pyStr (cellAt (rows.getD i []) fk)) = rid →
    pyStrip (pyStr (cellAt (rows.getD i []) uidx)) ≠ "" →
    (pyStrip (pyStr (cellAt (rows.getD i []) uidx)), rnum + i) ∈
      buildExistingAux fk uidx rid acc rnum rows := by
  intro rows
  induction rows with
  | nil =>
    intro _ _ _ i hi
    simp at hi
  | cons row rest ih =>
    intro acc rnum hnodup i hi hfk huid
    cases i with
    | zero =>
      simp only [List.getD_cons_zero] at hfk huid ⊢
      rw [buildExistingAux]
      rw [if_neg (by simpa using hfk), if_neg huid]
      rw [matchUids_cons_pos fk uidx rid row rest hfk huid] at hnodup
      refine buildExistingAux_preserve fk uidx rid rest _ (rnum + 1) _ _ ?_
        (List.nodup_cons.mp hnodup).1
      simpa using dinsertN_mem_self acc (pyStrip (pyStr (cellAt row uidx))) rnum
    | succ j =>
      simp only [List.getD_cons_succ] at hfk huid ⊢
      have hj : j < rest.length := by simpa using hi
      have harith : rnum + (j + 1) = (rnum + 1) + j := by omega
      rw [buildExistingAux, harith]
      by_cases hfk0 : pyStrip (pyStr (cellAt row fk)) ≠ rid
      · rw [if_pos hfk0]
        refine ih acc (rnum + 1) ?_ j hj hfk huid
        rwa [matchUids_cons_neg fk uidx rid row rest (fun hc => hfk0 hc.1)] at hnodup
      · rw [if_neg hfk0]
        push_neg at hfk0
        by_cases huid0 : pyStrip (pyStr (cellAt row uidx)) = ""
        · rw [if_pos huid0]
          refine ih acc (rnum + 1) ?_ j hj hfk huid
          rwa [matchUids_cons_neg fk uidx rid row rest (fun hc => hc.2 huid0)] at hnodup
        · rw [if_neg huid0]
          rw [matchUids_cons_pos fk uidx rid row rest hfk0 huid0] at hnodup
          exact ih _ (rnum + 1) (List.nodup_cons.mp hnodup).2 j hj hfk huid

/-- Characterization of a successful `mainPhase` when the needed columns are
already ensured: the processes tab is untouched, staged updates target the
main tab, the header is unchanged, main rows only grow, and a delete-flagged
request stages no append. -/
theorem mainPhase_ok (cfg : Config) (now : String) (body : Obj) (rid : String)
    (mh : List String) (s : Sheet)
    (hpk : cfg.main_pk_col ∈ mh)
    (hmainhead : s.main.header = mh) (hmne : mh ≠ [])
    (hsoft : cfg.soft_col ∈ mh) (hsoftat : cfg.soft_at_col ∈ mh)
    (hupd : cfg.updated_at_col = "" ∨ cfg.updated_at_col ∈ mh) :
    ∃ a upds s',
      mainPhase cfg now body rid mh s = (s', Except.ok (a, upds)) ∧
      s'.procs = s.procs ∧
      (∀ u ∈ upds, u.tab = TabId.main) ∧
      s'.main.header = s.main.header ∧
      s.main.rows <+: s'.main.rows ∧
      (get_flag body cfg.delete_flag_keys = true → s'.main.rows = s.main.rows) := by
  have hne' : s.main.header ≠ [] := by rw [hmainhead]; exact hmne
  have hens1 : ensure_columns cfg.auto_add cfg.main_tab s.main
      ([cfg.soft_col, cfg.soft_at_col, cfg.updated_at_col] ++ mh) =
      (s.main, Except.ok mh) := by
    rw [show (s.main, Except.ok mh) = (s.main, Except.ok s.main.header) by rw [hmainhead]]
    apply ensure_noop _ _ _ _ hne'
    intro c hc
    rw [hmainhead]
    rw [mem_uniq] at hc
    rcases List.mem_append.mp hc.2 with h1 | h1
    · rcases List.mem_cons.mp h1 with rfl | h2
      · exact hsoft
      · rcases List.mem_cons.mp h2 with rfl | h3
        · exact hsoftat
        · rcases List.mem_cons.mp h3 with rfl | h4
          · rcases hupd with he | hm
            · exact absurd he hc.1
            · exact hm
          · simp at h4
    · exact h1
  have hens2 : cfg.updated_at_col ≠ "" →
      ensure_columns cfg.auto_add cfg.main_tab s.main ([cfg.updated_at_col] ++ mh) =
      (s.main, Except.ok mh) := by
    intro hup
    rw [show (s.main, Except.ok mh) = (s.main, Except.ok s.main.header) by rw [hmainhead]]
    apply ensure_noop _ _ _ _ hne'
    intro c hc
    rw [hmainhead]
    rw [mem_uniq] at hc
    rcases List.mem_append.mp hc.2 with h1 | h1
    · rcases List.mem_cons.mp h1 with rfl | h2
      · rcases hupd with he | hm
        · exact absurd he hc.1
        · exact hm
      · simp at h2
    · exact h1
  rcases hres : mainPhase cfg now body rid mh s with ⟨s', r⟩
  have h := hres
  unfold mainPhase at h
  rw [show find_row_num_by_key cfg.main_tab mh cfg.main_pk_col (Val.vStr rid) s.main =
      Except.ok (findRowAux (mh.indexOf cfg.main_pk_col)
        (pyStrip (pyStr (Val.vStr rid))) 2 s.main.rows) by
    simp [find_row_num_by_key, hpk]] at h
  dsimp only at h
  by_cases hdel : get_flag body cfg.delete_flag_keys
  · rw [if_pos hdel] at h
    cases hrow : findRowAux (mh.indexOf cfg.main_pk_col)
        (pyStrip (pyStr (Val.vStr rid))) 2 s.main.rows with
    | some rnum =>
      rw [hrow] at h
      rw [hens1] at h
      dsimp only at h
      injection h with hs1 hr1
      subst hr1
      subst hs1
      refine ⟨_, _, _, rfl, rfl, ?_, rfl, List.prefix_rfl, fun _ => rfl⟩
      intro u hu
      simp only [List.mem_singleton] at hu
      subst hu
      rfl
    | none =>
      rw [hrow] at h
      dsimp only at h
      injection h with hs1 hr1
      subst hr1
      subst hs1
      refine ⟨_, _, _, rfl, rfl, ?_, rfl, List.prefix_rfl, fun _ => rfl⟩
      intro u hu
      simp at hu
  · rw [if_neg hdel] at h
    cases hrow : findRowAux (mh.indexOf cfg.main_pk_col)
        (pyStrip (pyStr (Val.vStr rid))) 2 s.main.rows with
    | none =>
      rw [hrow] at h
      dsimp only at h
      by_cases hup : cfg.updated_at_col ≠ ""
      · rw [if_pos hup] at h
        rw [hens2 hup] at h
        dsimp only at h
        injection h with hs1 hr1
        subst hr1
        subst hs1
        refine ⟨_, _, _, rfl, rfl, ?_, rfl, ⟨_, rfl⟩, fun hc => absurd hc hdel⟩
        intro u hu
        simp at hu
      · rw [if_neg hup] at h
        injection h with hs1 hr1
        subst hr1
        subst hs1
        refine ⟨_, _, _, rfl, rfl, ?_, rfl, ⟨_, rfl⟩, fun hc => absurd hc hdel⟩
        intro u hu
        simp at hu
    | some rnum =>
      rw [hrow] at h
      dsimp only at h
      by_cases hup : cfg.updated_at_col ≠ ""
      · rw [if_pos hup] at h
        rw [hens2 hup] at h
        dsimp only at h
        injection h with hs1 hr1
        subst hr1
        subst hs1
        refine ⟨_, _, _, rfl, rfl, ?_, rfl, List.prefix_rfl, fun hc => absurd hc hdel⟩
        intro u hu
        simp only [List.mem_singleton] at hu
        subst hu
        rfl
      · rw [if_neg hup] at h
        injection h with hs1 hr1
        subst hr1
        subst hs1
        refine ⟨_, _, _, rfl, rfl, ?_, rfl, List.prefix_rfl, fun hc => absurd hc hdel⟩
        intro u hu
        simp only [List.mem_singleton] at hu
        subst hu
        rfl

theorem mem_dlookup (m : List (String × Nat)) (k : String) (v : Nat)
    (hnodup : (m.map Prod.fst).Nodup) (h : (k, v) ∈ m) : dlookup m k = some v := by
  induction m with
  | nil => simp at h
  | cons kv rest ih =>
    obtain ⟨a, b⟩ := kv
    simp only [List.map_cons, List.nodup_cons] at hnodup
    by_cases hk : a = k
    · subst hk
      rcases List.mem_cons.mp h with he | hm
      · injection he with h1 h2
        subst h2
        simp [dlookup]
      · exact absurd (List.mem_map.mpr ⟨(a, v), hm, rfl⟩) hnodup.1
    · rcases List.mem_cons.mp h with he | hm
      · injection he with h1 h2
        exact absurd h1.symm hk
      · have hrec := ih hnodup.2 hm
        unfold dlookup at hrec ⊢
        rw [List.find?_cons_of_neg _ (by simp [hk])]
        exact hrec

/-- Characterization of a successful child block when the child-list key
holds a literal list, all child objects carry a non-blank UID and all needed
columns are present: the result counts the removed set, and for each removed
UID exactly one update is staged, soft-deleting its recorded row. -/
theorem procPhase_ok (cfg : Config) (now : String) (genId : Nat → String)
    (jsonLoads : String → Option Val) (body : Obj) (rid : String)
    (ph : List String) (s : Sheet) (pl : List Val)
    (existing : List (String × Nat)) (incoming removedL : List String)
    (hraw : lookupObj body cfg.processes_key = some (Val.vList pl))
    (hph : s.procs.header = ph) (hpne : ph ≠ [])
    (hfk : cfg.proc_fk_col ∈ ph) (huidc : "UID" ∈ ph)
    (hpkc : objsOf pl ≠ [] → cfg.proc_pk_col ∈ ph)
    (hsoft : cfg.soft_col ∈ ph) (hsoftat : cfg.soft_at_col ∈ ph)
    (hupd : cfg.updated_at_col = "" ∨ cfg.updated_at_col ∈ ph)
    (hgood : ∀ p ∈ objsOf pl, uidOf p ≠ "")
    (hd1 : cfg.soft_col ≠ cfg.soft_at_col)
    (hd2 : cfg.updated_at_col ≠ cfg.soft_col)
    (hd3 : cfg.updated_at_col ≠ cfg.soft_at_col)
    (hex : existing = buildExisting (ph.indexOf cfg.proc_fk_col) (ph.indexOf "UID") rid
      s.procs.rows)
    (hinc : incoming = (objsOf pl).map uidOf)
    (hrem : removedL = (existing.map Prod.fst).filter (fun u => u ∉ incoming)) :
    ∃ added updated upds2 s4,
      procPhase cfg now genId jsonLoads body rid ph s =
        (s4, Except.ok ((added, updated, removedL.length), upds2)) ∧
      s4.main = s.main ∧
      s4.procs.header = ph ∧
      s.procs.rows <+: s4.procs.rows ∧
      removedL.Nodup ∧
      (∀ uid ∈ removedL, ∃ rnum vals pre post,
        dlookup existing uid = some rnum ∧
        2 ≤ rnum ∧ rnum - 2 < s.procs.rows.length ∧
        upds2 = pre ++ ⟨TabId.procs, rnum, vals⟩ :: post ∧
        (∀ u ∈ post, u.tab = TabId.procs → u.row - 2 ≠ rnum - 2) ∧
        vals.length = ph.length ∧
        vals.getD (ph.indexOf cfg.soft_col) (Val.vStr "") = Val.vBool true ∧
        vals.getD (ph.indexOf cfg.soft_at_col) (Val.vStr "") = Val.vStr now ∧
        (cfg.updated_at_col ≠ "" ∧ cfg.updated_at_col ∈ ph →
          vals.getD (ph.indexOf cfg.updated_at_col) (Val.vStr "") = Val.vStr now)) := by
  have hinv := buildExisting_inv (ph.indexOf cfg.proc_fk_col) (ph.indexOf "UID") rid
    s.procs.rows
  rw [← hex] at hinv
  have hkeysnd : (existing.map Prod.fst).Nodup := hinv.1
  have hremnd : removedL.Nodup := hrem ▸ hkeysnd.filter _
  have hens : (if cfg.updated_at_col ≠ "" then
      ensure_columns cfg.auto_add cfg.proc_tab s.procs ([cfg.updated_at_col] ++ ph)
    else (s.procs, Except.ok ph)) = (s.procs, Except.ok ph) := by
    by_cases hup : cfg.updated_at_col ≠ ""
    · rw [if_pos hup]
      rw [show ((s.procs, Except.ok ph) : Tab × Except String (List String)) =
          (s.procs, Except.ok s.procs.header) by rw [hph]]
      apply ensure_noop _ _ _ _ (by rw [hph]; exact hpne)
      intro c hc
      rw [hph]
      rw [mem_uniq] at hc
      rcases List.mem_append.mp hc.2 with h1 | h1
      · rcases List.mem_cons.mp h1 with rfl | h2
        · rcases hupd with he | hm
          · exact absurd he hc.1
          · exact hm
        · simp at h2
      · exact h1
    · rw [if_neg hup]
  obtain ⟨acc', s2, hloop, hh2, hm2, hph2, hpre2, hinc2, hupd2⟩ :=
    childLoop_ok cfg now genId rid existing (objsOf pl) ⟨ph, [], 0, 0, [], 0⟩ s
      hph hpne hsoft hsoftat (fun hne2 => ⟨hfk, hpkc hne2⟩) hgood
  have hph2' : s2.procs.header = ph := by rw [hph2, hph]
  have hinc2' : acc'.incoming = incoming := by rw [hinc2, hinc]; simp
  have hens2 : (if cfg.auto_add then
      ensure_columns cfg.auto_add cfg.proc_tab s2.procs
        ([cfg.soft_col, cfg.soft_at_col] ++ acc'.headers)
    else (s2.procs, Except.ok acc'.headers)) = (s2.procs, Except.ok ph) := by
    rw [hh2]
    by_cases hauto : cfg.auto_add
    · rw [if_pos hauto]
      rw [show ((s2.procs, Except.ok ph) : Tab × Except String (List String)) =
          (s2.procs, Except.ok s2.procs.header) by rw [hph2']]
      apply ensure_noop _ _ _ _ (by rw [hph2']; exact hpne)
      intro c hc
      rw [hph2']
      refine uniq_append_subset _ _ ?_ c hc
      intro c' hc'
      rcases List.mem_cons.mp hc' with rfl | hc''
      · exact hsoft
      · rcases List.mem_cons.mp hc'' with rfl | hc'''
        · exact hsoftat
        · simp at hc'''
    · rw [if_neg hauto]
  rcases hres : procPhase cfg now genId jsonLoads body rid ph s with ⟨s4, r⟩
  have h := hres
  unfold procPhase at h
  rw [hraw] at h
  dsimp only [parseProcessesRaw] at h
  rw [if_neg (by simp [hfk]), if_neg (by simp [huidc])] at h
  rw [← hex] at h
  rw [hens] at h
  dsimp only at h
  rw [show ({ s with procs := s.procs } : Sheet) = s from rfl] at h
  rw [hloop] at h
  dsimp only at h
  rw [hinc2'] at h
  rw [← hrem] at h
  by_cases hremnil : removedL = []
  · rw [if_pos hremnil] at h
    injection h with hs4 hr
    subst hs4
    subst hr
    refine ⟨_, _, _, _, by rw [hremnil]; rfl, hm2, hph2', hpre2, hremnd, ?_⟩
    intro uid huid
    rw [hremnil] at huid
    simp at huid
  · rw [if_neg hremnil] at h
    rw [hens2] at h
    dsimp only at h
    have hsome : ∀ uid ∈ removedL, (dlookup existing uid).isSome := by
      intro uid huid
      rw [hrem] at huid
      exact dlookup_isSome_of_mem_keys _ _ (List.mem_of_mem_filter huid)
    obtain ⟨hcount, hmemall, hper⟩ := removedLoop_char cfg now existing ph
      { s2 with procs := s2.procs } hsoft hsoftat hd1 hd2 hd3 removedL hremnd hsome
    rw [show ({ s2 with procs := s2.procs } : Sheet) = s2 from rfl] at hcount hmemall hper
    injection h with hs4 hr
    subst hs4
    subst hr
    refine ⟨_, _, _, _, by rw [← hcount], hm2, hph2', hpre2, hremnd, ?_⟩
    intro uid huidm
    obtain ⟨rnum, vals, pre, post, hdl, heq, hpost, hlen, hc1, hc2, hc3⟩ := hper uid huidm
    have hmemkv := dlookup_mem existing uid rnum hdl
    have hbd := hinv.2.1 _ hmemkv
    refine ⟨rnum, vals, acc'.updates ++ pre, post, hdl, hbd.1, by
        have := hbd.2
        omega, ?_, ?_, hlen, hc1, hc2, hc3⟩
    · rw [heq]
      simp
    · intro u hu _
      obtain ⟨uid2, hm2', hne2, hdl2⟩ := hpost u hu
      have hmemkv2 := dlookup_mem existing uid2 u.row hdl2
      have hvne : rnum ≠ u.row :=
        hinv.2.2 (uid, rnum) hmemkv (uid2, u.row) hmemkv2 (by simpa using Ne.symm hne2)
      have hbd2 := hinv.2.1 _ hmemkv2
      have h2r : 2 ≤ rnum := hbd.1
      have h2u : 2 ≤ u.row := hbd2.1
      omega
theorem mainPhase_upds_tab (cfg : Config) (now : String) (body : Obj) (rid : String)
    (mh : List String) (s : Sheet) (a : String) (upds : List Upd)
    (h : (mainPhase cfg now body rid mh s).2 = Except.ok (a, upds)) :
    ∀ u ∈ upds, u.tab = TabId.main := by
  unfold mainPhase at h
  split at h
  · exact absurd h (by simp)
  · split at h
    · split at h
      · split at h
        · exact absurd h (by simp)
        · simp only [Except.ok.injEq, Prod.mk.injEq] at h
          obtain ⟨-, rfl⟩ := h
          intro u hu
          simp only [List.mem_singleton] at hu
          subst hu
          rfl
      · simp only [Except.ok.injEq, Prod.mk.injEq] at h
        obtain ⟨-, rfl⟩ := h
        intro u hu
        simp at hu
    · split at h
      · split at h
        · split at h
          · exact absurd h (by simp)
          · simp only [Except.ok.injEq, Prod.mk.injEq] at h
            obtain ⟨-, rfl⟩ := h
            intro u hu
            simp at hu
        · simp only [Except.ok.injEq, Prod.mk.injEq] at h
          obtain ⟨-, rfl⟩ := h
          intro u hu
          simp at hu
      · split at h
        · split at h
          · exact absurd h (by simp)
          · simp only [Except.ok.injEq, Prod.mk.injEq] at h
            obtain ⟨-, rfl⟩ := h
            intro u hu
            simp only [List.mem_singleton] at hu
            subst hu
            rfl
        · simp only [Except.ok.injEq, Prod.mk.injEq] at h
          obtain ⟨-, rfl⟩ := h
          intro u hu
          simp only [List.mem_singleton] at hu
          subst hu
          rfl


/-! ## Monotonicity of the row counts (no row is ever physically removed) -/

theorem findRowAux_bounds (idx : Nat) (target : String) :
    forall (rows : List (List Val)) (r rnum : Nat),
    findRowAux idx target r rows = some rnum -> r <= rnum /\ rnum - r < rows.length := by
  intro rows
  induction rows with
  | nil =>
    intro r rnum h
    simp [findRowAux] at h
  | cons row rest ih =>
    intro r rnum h
    rw [findRowAux] at h
    by_cases hc : pyStrip (pyStr (cellAt row idx)) = target
    · rw [if_pos hc] at h
      injection h with h1
      subst h1
      simp
    · rw [if_neg hc] at h
      obtain ⟨h1, h2⟩ := ih (r + 1) rnum h
      refine ⟨by omega, ?_⟩
      simp only [List.length_cons]
      omega

theorem ensure_rows_of_eq (autoAdd : Bool) (tabName : String) (t : Tab)
    (required : List String) (t1 : Tab) (r : Except String (List String))
    (heq : ensure_columns autoAdd tabName t required = (t1, r)) : t1.rows = t.rows := by
  have h := ensure_columns_rows autoAdd tabName t required
  rw [heq] at h
  exact h

theorem ensureIf_rows (c : Prop) [Decidable c] (autoAdd : Bool) (tabName : String)
    (t : Tab) (required : List String) (alt : List String) (t1 : Tab)
    (r : Except String (List String))
    (heq : (if c then ensure_columns autoAdd tabName t required
            else (t, Except.ok alt)) = (t1, r)) : t1.rows = t.rows := by
  split at heq
  · exact ensure_rows_of_eq _ _ _ _ _ _ heq
  · injection heq with h1 h2
    rw [← h1]

theorem applyChildSoftDelete_rows (cfg : Config) (now : String) (t : Tab)
    (headers : List String) (row : List Val) (p_del : Bool) :
    ((applyChildSoftDelete cfg now t headers row p_del).1).rows = t.rows := by
  unfold applyChildSoftDelete
  split
  · split
    next t1 e heq =>
      exact ensure_rows_of_eq _ _ _ _ _ _ heq
    next t1 ph1 heq =>
      exact ensure_rows_of_eq _ _ _ _ _ _ heq
  · rfl

theorem applyChildSoftDelete_rows_of_eq (cfg : Config) (now : String) (t : Tab)
    (headers : List String) (row : List Val) (p_del : Bool) (t1 : Tab)
    (r : Except String (List String × List Val))
    (heq : applyChildSoftDelete cfg now t headers row p_del = (t1, r)) :
    t1.rows = t.rows := by
  have h := applyChildSoftDelete_rows cfg now t headers row p_del
  rw [heq] at h
  exact h

theorem childStep_mono (cfg : Config) (now : String) (genId : Nat -> String)
    (rid : String) (existing : List (String × Nat)) (acc : ChildAcc) (p : Obj)
    (s : Sheet) :
    forall (s1 : Sheet) (r : Except String ChildAcc),
    childStep cfg now genId rid existing acc p s = (s1, r) ->
    s1.main = s.main /\ s.procs.rows.length <= s1.procs.rows.length := by
  intro s1 r h
  cases hl : lookupObj p "UID" with
  | none =>
    simp only [childStep, hl] at h
    injection h with h1 h2
    subst h1
    exact ⟨rfl, le_refl _⟩
  | some uv =>
    simp only [childStep, hl] at h
    by_cases hs : pyStrip (pyStr uv) = ""
    · rw [if_pos hs] at h
      injection h with h1 h2
      subst h1
      exact ⟨rfl, le_refl _⟩
    · rw [if_neg hs] at h
      cases hdl : dlookup existing (pyStrip (pyStr uv)) with
      | some rnum =>
        simp only [hdl] at h
        split at h
        next t1 e heq =>
          have hr := applyChildSoftDelete_rows_of_eq _ _ _ _ _ _ _ _ heq
          injection h with h1 h2
          subst h1
          exact ⟨rfl, le_of_eq (congrArg List.length hr).symm⟩
        next t1 ph1 patched1 heq =>
          have hr := applyChildSoftDelete_rows_of_eq _ _ _ _ _ _ _ _ heq
          injection h with h1 h2
          subst h1
          exact ⟨rfl, le_of_eq (congrArg List.length hr).symm⟩
      | none =>
        simp only [hdl] at h
        by_cases hfk3 : cfg.proc_fk_col ∉ acc.headers
        · rw [if_pos hfk3] at h
          injection h with h1 h2
          subst h1
          exact ⟨rfl, le_refl _⟩
        · rw [if_neg hfk3] at h
          by_cases hpk3 : cfg.proc_pk_col ∉ acc.headers
          · rw [if_pos hpk3] at h
            injection h with h1 h2
            subst h1
            exact ⟨rfl, le_refl _⟩
          · rw [if_neg hpk3] at h
            split at h
            next t1 e heq =>
              have hr := applyChildSoftDelete_rows_of_eq _ _ _ _ _ _ _ _ heq
              injection h with h1 h2
              subst h1
              exact ⟨rfl, le_of_eq (congrArg List.length hr).symm⟩
            next t1 ph1 nr1 heq =>
              have hr := applyChildSoftDelete_rows_of_eq _ _ _ _ _ _ _ _ heq
              have hr2 : t1.rows.length = s.procs.rows.length := congrArg List.length hr
              injection h with h1 h2
              subst h1
              refine ⟨rfl, ?_⟩
              simp only [append_row, List.length_append, List.length_cons,
                List.length_nil]
              omega

theorem childLoop_mono (cfg : Config) (now : String) (genId : Nat -> String)
    (rid : String) (existing : List (String × Nat)) :
    forall (ps : List Obj) (acc : ChildAcc) (s : Sheet),
    ((childLoop cfg now genId rid existing ps acc s).1).main = s.main /\
    s.procs.rows.length <= ((childLoop cfg now genId rid existing ps acc s).1).procs.rows.length := by
  intro ps
  induction ps with
  | nil =>
    intro acc s
    exact ⟨rfl, le_refl _⟩
  | cons p rest ih =>
    intro acc s
    rw [childLoop]
    rcases hstep : childStep cfg now genId rid existing acc p s with ⟨s1, r⟩
    obtain ⟨hm, hlen⟩ := childStep_mono cfg now genId rid existing acc p s s1 r hstep
    cases r with
    | ok acc1 =>
      dsimp only
      obtain ⟨hm2, hlen2⟩ := ih acc1 s1
      exact ⟨hm2.trans hm, le_trans hlen hlen2⟩
    | error e =>
      dsimp only
      exact ⟨hm, hlen⟩

theorem childLoop_mono_of_eq (cfg : Config) (now : String) (genId : Nat -> String)
    (rid : String) (existing : List (String × Nat)) (ps : List Obj) (acc : ChildAcc)
    (s s2 : Sheet) (r : Except String ChildAcc)
    (heq : childLoop cfg now genId rid existing ps acc s = (s2, r)) :
    s2.main = s.main /\ s.procs.rows.length <= s2.procs.rows.length := by
  obtain ⟨h1, h2⟩ := childLoop_mono cfg now genId rid existing ps acc s
  rw [heq] at h1 h2
  exact ⟨h1, h2⟩

theorem mainPhase_mono (cfg : Config) (now : String) (body : Obj) (rid : String)
    (mh : List String) (s : Sheet) :
    s.main.rows.length <= ((mainPhase cfg now body rid mh s).1).main.rows.length := by
  unfold mainPhase
  split
  · exact le_refl _
  · split
    · split
      · split
        next t1 e heq =>
          have h := ensure_rows_of_eq _ _ _ _ _ _ heq
          exact le_of_eq (congrArg List.length h).symm
        next t1 mh1 heq =>
          have h := ensure_rows_of_eq _ _ _ _ _ _ heq
          exact le_of_eq (congrArg List.length h).symm
      · exact le_refl _
    · split
      · split
        · split
          next t1 e heq =>
            have h := ensure_rows_of_eq _ _ _ _ _ _ heq
            exact le_of_eq (congrArg List.length h).symm
          next t1 mh1 heq =>
            have h := ensure_rows_of_eq _ _ _ _ _ _ heq
            have h2 : t1.rows.length = s.main.rows.length := congrArg List.length h
            simp only [append_row, List.length_append, List.length_cons, List.length_nil]
            omega
        · simp only [append_row, List.length_append, List.length_cons, List.length_nil]
          omega
      · split
        · split
          next t1 e heq =>
            have h := ensure_rows_of_eq _ _ _ _ _ _ heq
            exact le_of_eq (congrArg List.length h).symm
          next t1 mh1 heq =>
            have h := ensure_rows_of_eq _ _ _ _ _ _ heq
            exact le_of_eq (congrArg List.length h).symm
        · exact le_refl _

theorem mainPhase_mono_of_eq (cfg : Config) (now : String) (body : Obj) (rid : String)
    (mh : List String) (s s3 : Sheet) (r : Except String (String × List Upd))
    (heq : mainPhase cfg now body rid mh s = (s3, r)) :
    s.main.rows.length <= s3.main.rows.length /\ s3.procs = s.procs := by
  have h1 := mainPhase_mono cfg now body rid mh s
  have h2 := mainPhase_procs cfg now body rid mh s
  rw [heq] at h1 h2
  exact ⟨h1, h2⟩

theorem procPhase_mono (cfg : Config) (now : String) (genId : Nat -> String)
    (jsonLoads : String -> Option Val) (body : Obj) (rid : String)
    (ph : List String) (s : Sheet) :
    ((procPhase cfg now genId jsonLoads body rid ph s).1).main = s.main /\
    s.procs.rows.length <= ((procPhase cfg now genId jsonLoads body rid ph s).1).procs.rows.length := by
  unfold procPhase
  split
  · exact ⟨rfl, le_refl _⟩
  · split
    · exact ⟨rfl, le_refl _⟩
    · split
      next e heq0 =>
        exact ⟨rfl, le_refl _⟩
      next processes heq0 =>
        split
        · exact ⟨rfl, le_refl _⟩
        · split
          · exact ⟨rfl, le_refl _⟩
          · split
            next t1 e heq =>
              have h := ensureIf_rows _ _ _ _ _ _ _ _ heq
              exact ⟨rfl, le_of_eq (congrArg List.length h).symm⟩
            next t1 ph1 heq =>
              have h := ensureIf_rows _ _ _ _ _ _ _ _ heq
              have h2 : t1.rows.length = s.procs.rows.length := congrArg List.length h
              rcases hloop : childLoop cfg now genId rid
                  (buildExisting (ph.indexOf cfg.proc_fk_col) (ph.indexOf "UID") rid
                    s.procs.rows) processes ⟨ph1, [], 0, 0, [], 0⟩ { s with procs := t1 }
                with ⟨s2, r2⟩
              obtain ⟨hm2, hlen2⟩ := childLoop_mono_of_eq _ _ _ _ _ _ _ _ _ _ hloop
              dsimp only at hm2 hlen2
              simp only [hloop]
              cases r2 with
              | error e =>
                dsimp only
                exact ⟨hm2, by omega⟩
              | ok acc =>
                dsimp only
                split
                · refine ⟨hm2, ?_⟩
                  dsimp only
                  omega
                · split
                  next t2 e2 heq3 =>
                    have h3 := ensureIf_rows _ _ _ _ _ _ _ _ heq3
                    have h4 : t2.rows.length = s2.procs.rows.length :=
                      congrArg List.length h3
                    refine ⟨hm2, ?_⟩
                    dsimp only
                    omega
                  next t2 ph2 heq3 =>
                    have h3 := ensureIf_rows _ _ _ _ _ _ _ _ heq3
                    have h4 : t2.rows.length = s2.procs.rows.length :=
                      congrArg List.length h3
                    refine ⟨hm2, ?_⟩
                    dsimp only
                    omega

theorem procPhase_mono_of_eq (cfg : Config) (now : String) (genId : Nat -> String)
    (jsonLoads : String -> Option Val) (body : Obj) (rid : String)
    (ph : List String) (s s4 : Sheet) (r : Except String ((Nat × Nat × Nat) × List Upd))
    (heq : procPhase cfg now genId jsonLoads body rid ph s = (s4, r)) :
    s4.main = s.main /\ s.procs.rows.length <= s4.procs.rows.length := by
  obtain ⟨h1, h2⟩ := procPhase_mono cfg now genId jsonLoads body rid ph s
  rw [heq] at h1 h2
  exact ⟨h1, h2⟩

theorem publish_rows_mono (cfg : Config) (now : String) (genId : Nat -> String)
    (jsonLoads : String -> Option Val) (body : Obj) (s0 : Sheet) :
    s0.main.rows.length <= ((publish cfg now genId jsonLoads body s0).1).main.rows.length /\
    s0.procs.rows.length <= ((publish cfg now genId jsonLoads body s0).1).procs.rows.length := by
  unfold publish
  split
  · exact ⟨le_refl _, le_refl _⟩
  · split
    · exact ⟨le_refl _, le_refl _⟩
    · split
      next t1 e heq =>
        have h := ensure_rows_of_eq _ _ _ _ _ _ heq
        exact ⟨le_of_eq (congrArg List.length h).symm, le_refl _⟩
      next t1 mh heq =>
        have h1 := ensure_rows_of_eq _ _ _ _ _ _ heq
        have h1l : t1.rows.length = s0.main.rows.length := congrArg List.length h1
        dsimp only
        split
        next t2 e heq2 =>
          have h2 := ensure_rows_of_eq _ _ _ _ _ _ heq2
          exact ⟨le_of_eq h1l.symm, le_of_eq (congrArg List.length h2).symm⟩
        next t2 phh heq2 =>
          have h2 := ensure_rows_of_eq _ _ _ _ _ _ heq2
          have h2l : t2.rows.length = s0.procs.rows.length := congrArg List.length h2
          split
          next s3 e heq3 =>
            obtain ⟨hm3, hp3⟩ := mainPhase_mono_of_eq _ _ _ _ _ _ _ _ heq3
            dsimp only at hm3 hp3
            dsimp only
            constructor
            · omega
            · rw [hp3]
              exact le_of_eq h2l.symm
          next s3 mainRes heq3 =>
            obtain ⟨hm3, hp3⟩ := mainPhase_mono_of_eq _ _ _ _ _ _ _ _ heq3
            dsimp only at hm3 hp3
            have hp3l : s3.procs.rows.length = s0.procs.rows.length := by
              rw [hp3]
              exact h2l
            split
            next s4 e heq4 =>
              obtain ⟨hm4, hl4⟩ := procPhase_mono_of_eq _ _ _ _ _ _ _ _ _ _ heq4
              dsimp only
              constructor
              · rw [hm4]
                omega
              · omega
            next s4 procRes heq4 =>
              obtain ⟨hm4, hl4⟩ := procPhase_mono_of_eq _ _ _ _ _ _ _ _ _ _ heq4
              obtain ⟨hb1, hb2⟩ := batch_update_rows_length s4 (mainRes.2 ++ procRes.2)
              dsimp only
              constructor
              · rw [hb1, hm4]
                omega
              · rw [hb2]
                omega

/-! ## Error behaviour of the child loop on a blank `"UID"` -/

theorem dinsertN_keys (m : List (String × Nat)) (k : String) (v : Nat) (c : String)
    (h : c ∈ m.map Prod.fst) : c ∈ (dinsertN m k v).map Prod.fst := by
  unfold dinsertN
  split
  · obtain ⟨kv, hkv, hk⟩ := List.mem_map.mp h
    subst hk
    by_cases he : kv.1 = k
    · exact List.mem_map.mpr ⟨(k, v), List.mem_map.mpr ⟨kv, hkv, by rw [if_pos he]⟩, he.symm⟩
    · exact List.mem_map.mpr ⟨kv, List.mem_map.mpr ⟨kv, hkv, by rw [if_neg he]⟩, rfl⟩
  · rw [List.map_append]
    exact List.mem_append.mpr (Or.inl h)

theorem dinsertN_keys_self (m : List (String × Nat)) (k : String) (v : Nat) :
    k ∈ (dinsertN m k v).map Prod.fst :=
  List.mem_map.mpr ⟨(k, v), dinsertN_mem_self m k v, rfl⟩

/-- Every recorded child UID (a non-blank UID cell on a row whose foreign-key
cell trim-equals the parent key) is a key of the `existing_for_row` map. -/
theorem buildExistingAux_keys (fk uidx : Nat) (rid : String) :
    forall (rows : List (List Val)) (acc : List (String × Nat)) (rnum : Nat)
      (uid : String),
    uid ∈ matchUids fk uidx rid rows ∨ uid ∈ acc.map Prod.fst ->
    uid ∈ (buildExistingAux fk uidx rid acc rnum rows).map Prod.fst := by
  intro rows
  induction rows with
  | nil =>
    intro acc rnum uid h
    rcases h with h | h
    · simp [matchUids] at h
    · simpa [buildExistingAux] using h
  | cons row rest ih =>
    intro acc rnum uid h
    rw [buildExistingAux]
    by_cases hfk : pyStrip (pyStr (cellAt row fk)) ≠ rid
    · rw [if_pos hfk]
      apply ih
      rcases h with h | h
      · rw [matchUids_cons_neg fk uidx rid row rest (fun hc => hfk hc.1)] at h
        exact Or.inl h
      · exact Or.inr h
    · rw [if_neg hfk]
      push_neg at hfk
      by_cases huid : pyStrip (pyStr (cellAt row uidx)) = ""
      · rw [if_pos huid]
        apply ih
        rcases h with h | h
        · rw [matchUids_cons_neg fk uidx rid row rest (fun hc => hc.2 huid)] at h
          exact Or.inl h
        · exact Or.inr h
      · rw [if_neg huid]
        apply ih
        rcases h with h | h
        · rw [matchUids_cons_pos fk uidx rid row rest hfk huid] at h
          rcases List.mem_cons.mp h with rfl | h2
          · exact Or.inr (dinsertN_keys_self acc _ rnum)
          · exact Or.inl h2
        · exact Or.inr (dinsertN_keys acc _ rnum uid h)

/-! ## Cells of the delete-flagged main-row rewrite -/

theorem mainDelete_cells (cfg : Config) (now : String) (mh : List String)
    (c0 : List Val) (hlen : c0.length = mh.length)
    (hsoft : cfg.soft_col ∈ mh) (hsoftat : cfg.soft_at_col ∈ mh)
    (hupd : cfg.updated_at_col = "" ∨ cfg.updated_at_col ∈ mh)
    (hd1 : cfg.soft_col ≠ cfg.soft_at_col)
    (hd2 : cfg.updated_at_col ≠ cfg.soft_col)
    (hd3 : cfg.updated_at_col ≠ cfg.soft_at_col) :
    (if cfg.updated_at_col ≠ "" then
        set_cell mh (set_cell mh (set_cell mh c0 cfg.soft_col (Val.vBool true))
          cfg.soft_at_col (Val.vStr now)) cfg.updated_at_col (Val.vStr now)
      else set_cell mh (set_cell mh c0 cfg.soft_col (Val.vBool true))
          cfg.soft_at_col (Val.vStr now)).length = mh.length ∧
    (if cfg.updated_at_col ≠ "" then
        set_cell mh (set_cell mh (set_cell mh c0 cfg.soft_col (Val.vBool true))
          cfg.soft_at_col (Val.vStr now)) cfg.updated_at_col (Val.vStr now)
      else set_cell mh (set_cell mh c0 cfg.soft_col (Val.vBool true))
          cfg.soft_at_col (Val.vStr now)).getD (mh.indexOf cfg.soft_col) (Val.vStr "") =
      Val.vBool true ∧
    (if cfg.updated_at_col ≠ "" then
        set_cell mh (set_cell mh (set_cell mh c0 cfg.soft_col (Val.vBool true))
          cfg.soft_at_col (Val.vStr now)) cfg.updated_at_col (Val.vStr now)
      else set_cell mh (set_cell mh c0 cfg.soft_col (Val.vBool true))
          cfg.soft_at_col (Val.vStr now)).getD (mh.indexOf cfg.soft_at_col) (Val.vStr "") =
      Val.vStr now := by
  have hidx1 : mh.indexOf cfg.soft_at_col ≠ mh.indexOf cfg.soft_col :=
    indexOf_ne_of_mem_ne mh _ _ hsoftat (Ne.symm hd1)
  have hc1len : (set_cell mh c0 cfg.soft_col (Val.vBool true)).length = mh.length := by
    rw [set_cell_length, hlen]
  have hc2len : (set_cell mh (set_cell mh c0 cfg.soft_col (Val.vBool true))
      cfg.soft_at_col (Val.vStr now)).length = mh.length := by
    rw [set_cell_length, hc1len]
  by_cases hup : cfg.updated_at_col ≠ ""
  · rw [if_pos hup]
    have hupm : cfg.updated_at_col ∈ mh := hupd.resolve_left hup
    have hidx2 : mh.indexOf cfg.updated_at_col ≠ mh.indexOf cfg.soft_col :=
      indexOf_ne_of_mem_ne mh _ _ hupm hd2
    have hidx3 : mh.indexOf cfg.updated_at_col ≠ mh.indexOf cfg.soft_at_col :=
      indexOf_ne_of_mem_ne mh _ _ hupm hd3
    refine ⟨by rw [set_cell_length, hc2len], ?_, ?_⟩
    · rw [set_cell_getD_ne _ _ _ _ _ _ hidx2, set_cell_getD_ne _ _ _ _ _ _ hidx1]
      exact set_cell_getD_self _ _ _ _ _ hsoft (le_of_eq hlen.symm)
    · rw [set_cell_getD_ne _ _ _ _ _ _ hidx3]
      exact set_cell_getD_self _ _ _ _ _ hsoftat (le_of_eq hc1len.symm)
  · rw [if_neg hup]
    refine ⟨hc2len, ?_, ?_⟩
    · rw [set_cell_getD_ne _ _ _ _ _ _ hidx1]
      exact set_cell_getD_self _ _ _ _ _ hsoft (le_of_eq hlen.symm)
    · exact set_cell_getD_self _ _ _ _ _ hsoftat (le_of_eq hc1len.symm)

/-- C1 (amended, strict variant `app.py` only): a payload without the
child-list key leaves the child block a no-op — the sheet state is returned
unchanged, no child-range write is staged, and the counts are (0, 0, 0); a
payload carrying the child-list key as an explicit empty list soft-deletes
every recorded child of the parent: each non-blank-UID child row whose
foreign-key cell trim-equals the parent key has its UID in the
`existing_for_row` map, the deleted count is the size of that map, and for
each recorded UID exactly one update is staged at its recorded row with the
soft-delete flag set to true and the soft-delete timestamp set (provided the
marker columns are present on the child tab with pairwise distinct names).
(The `main.py` variant runs the inferred-delete step even when the key is
absent — see the counterexample.) -/
theorem C1_child_block_presence :
    (forall (cfg : Config) (now : String) (genId : Nat -> String)
      (jsonLoads : String -> Option Val) (body : Obj) (rid : String)
      (ph : List String) (s : Sheet),
      lookupObj body cfg.processes_key = none ->
      procPhase cfg now genId jsonLoads body rid ph s =
        (s, Except.ok ((0, 0, 0), []))) ∧
    (forall (cfg : Config) (now : String) (genId : Nat -> String)
      (jsonLoads : String -> Option Val) (body : Obj) (rid : String)
      (ph : List String) (s : Sheet),
      lookupObj body cfg.processes_key = some (Val.vList []) ->
      s.procs.header = ph -> ph ≠ [] ->
      cfg.proc_fk_col ∈ ph -> "UID" ∈ ph ->
      cfg.soft_col ∈ ph -> cfg.soft_at_col ∈ ph ->
      (cfg.updated_at_col = "" ∨ cfg.updated_at_col ∈ ph) ->
      cfg.soft_col ≠ cfg.soft_at_col ->
      cfg.updated_at_col ≠ cfg.soft_col ->
      cfg.updated_at_col ≠ cfg.soft_at_col ->
      ∃ added updated upds2 s4,
        procPhase cfg now genId jsonLoads body rid ph s =
          (s4, Except.ok ((added, updated,
            ((buildExisting (ph.indexOf cfg.proc_fk_col) (ph.indexOf "UID") rid
                s.procs.rows).map Prod.fst).length), upds2)) ∧
        s4.main = s.main ∧
        (∀ uid ∈ matchUids (ph.indexOf cfg.proc_fk_col) (ph.indexOf "UID") rid
            s.procs.rows, ∃ rnum vals pre post,
          dlookup (buildExisting (ph.indexOf cfg.proc_fk_col) (ph.indexOf "UID") rid
            s.procs.rows) uid = some rnum ∧
          2 ≤ rnum ∧ rnum - 2 < s.procs.rows.length ∧
          upds2 = pre ++ ⟨TabId.procs, rnum, vals⟩ :: post ∧
          (∀ u ∈ post, u.tab = TabId.procs -> u.row - 2 ≠ rnum - 2) ∧
          vals.length = ph.length ∧
          vals.getD (ph.indexOf cfg.soft_col) (Val.vStr "") = Val.vBool true ∧
          vals.getD (ph.indexOf cfg.soft_at_col) (Val.vStr "") = Val.vStr now)) := by
  constructor
  · intro cfg now genId jsonLoads body rid ph s h
    simp only [procPhase, h]
  · intro cfg now genId jsonLoads body rid ph s hraw hph hpne hfk huidc hsoft hsoftat
      hupd hd1 hd2 hd3
    obtain ⟨added, updated, upds2, s4, heq, hm, hph4, hpre, hnd, hper⟩ :=
      procPhase_ok cfg now genId jsonLoads body rid ph s []
        (buildExisting (ph.indexOf cfg.proc_fk_col) (ph.indexOf "UID") rid s.procs.rows)
        []
        ((buildExisting (ph.indexOf cfg.proc_fk_col) (ph.indexOf "UID") rid
          s.procs.rows).map Prod.fst)
        hraw hph hpne hfk huidc (fun h => absurd rfl h) hsoft hsoftat hupd
        (by simp [objsOf]) hd1 hd2 hd3 rfl rfl (by simp)
    refine ⟨added, updated, upds2, s4, heq, hm, ?_⟩
    intro uid huid
    have hkey : uid ∈ (buildExisting (ph.indexOf cfg.proc_fk_col) (ph.indexOf "UID")
        rid s.procs.rows).map Prod.fst :=
      buildExistingAux_keys (ph.indexOf cfg.proc_fk_col) (ph.indexOf "UID") rid
        s.procs.rows [] 2 uid (Or.inl huid)
    obtain ⟨rnum, vals, pre, post, hdl, hb1, hb2, hupds, hpost, hlen, hc1, hc2, hc3⟩ :=
      hper uid hkey
    exact ⟨rnum, vals, pre, post, hdl, hb1, hb2, hupds, hpost, hlen, hc1, hc2⟩

/-- C1 witness: the absent-key no-op applied to a parent-only payload, and the
empty-list case applied to the two recorded children `U1`, `U2` of `R1`. -/
theorem C1_child_block_presence_witness :
    (procPhase Cx.cfgStrict "T1" Cx.genIdCx Cx.jsonNone Cx.mBody "R1"
        Cx.sheetFull.procs.header Cx.sheetFull =
      (Cx.sheetFull, Except.ok ((0, 0, 0), []))) ∧
    ∃ added updated upds2 s4,
      procPhase Cx.cfgStrict "T1" Cx.genIdCx Cx.jsonNone Cx.c1Body "R1"
          Cx.sheetFull.procs.header Cx.sheetFull =
        (s4, Except.ok ((added, updated,
          ((buildExisting (Cx.sheetFull.procs.header.indexOf Cx.cfgStrict.proc_fk_col)
              (Cx.sheetFull.procs.header.indexOf "UID") "R1"
              Cx.sheetFull.procs.rows).map Prod.fst).length), upds2)) ∧
      s4.main = Cx.sheetFull.main ∧
      (∀ uid ∈ matchUids (Cx.sheetFull.procs.header.indexOf Cx.cfgStrict.proc_fk_col)
          (Cx.sheetFull.procs.header.indexOf "UID") "R1" Cx.sheetFull.procs.rows,
        ∃ rnum vals pre post,
        dlookup (buildExisting (Cx.sheetFull.procs.header.indexOf Cx.cfgStrict.proc_fk_col)
          (Cx.sheetFull.procs.header.indexOf "UID") "R1" Cx.sheetFull.procs.rows) uid =
            some rnum ∧
        2 ≤ rnum ∧ rnum - 2 < Cx.sheetFull.procs.rows.length ∧
        upds2 = pre ++ ⟨TabId.procs, rnum, vals⟩ :: post ∧
        (∀ u ∈ post, u.tab = TabId.procs -> u.row - 2 ≠ rnum - 2) ∧
        vals.length = Cx.sheetFull.procs.header.length ∧
        vals.getD (Cx.sheetFull.procs.header.indexOf Cx.cfgStrict.soft_col)
          (Val.vStr "") = Val.vBool true ∧
        vals.getD (Cx.sheetFull.procs.header.indexOf Cx.cfgStrict.soft_at_col)
          (Val.vStr "") = Val.vStr "T1") := by
  constructor
  · exact C1_child_block_presence.1 Cx.cfgStrict "T1" Cx.genIdCx Cx.jsonNone Cx.mBody
      "R1" Cx.sheetFull.procs.header Cx.sheetFull rfl
  · exact C1_child_block_presence.2 Cx.cfgStrict "T1" Cx.genIdCx Cx.jsonNone Cx.c1Body
      "R1" Cx.sheetFull.procs.header Cx.sheetFull rfl rfl (by decide) (by decide)
      (by decide) (by decide) (by decide) (Or.inr (by decide)) (by decide) (by decide)
      (by decide)

/-- C3 (amended, strict variant `app.py`, provided the soft-delete marker
columns are present on the child tab with pairwise distinct names): when child
reconciliation runs on a literal child list whose objects all carry a
non-blank UID, the inferred-deleted set is exactly the set difference
(recorded child UIDs) minus (incoming child UIDs), the returned deleted count
is the size of that set, and each removed UID gets exactly one staged
in-place write at its recorded row with the soft-delete flag true, the
soft-delete timestamp and (when configured and present) the updated-at
timestamp set to now.  In particular, with existing children `U1`, `U2` and
incoming list `[U1]`, the counts are added 0, updated 1, deleted 1.  The
configured child primary-key column must also be present in the headers: a
blank configured name is dropped from the ensured set by `uniq`, and a new
incoming child then aborts the request with an uncaught `ValueError` from
`proc_headers.index(...)` at line 388.  (Without the soft-delete columns and
with auto-extension disabled the count is still taken but no flag is set —
see the counterexample.) -/
theorem C3_removed_set_soft_delete :
    (forall (cfg : Config) (now : String) (genId : Nat -> String)
      (jsonLoads : String -> Option Val) (body : Obj) (rid : String)
      (ph : List String) (s : Sheet) (pl : List Val)
      (existing : List (String × Nat)) (removedL : List String),
      lookupObj body cfg.processes_key = some (Val.vList pl) ->
      s.procs.header = ph -> ph ≠ [] ->
      cfg.proc_fk_col ∈ ph -> "UID" ∈ ph -> cfg.proc_pk_col ∈ ph ->
      cfg.soft_col ∈ ph -> cfg.soft_at_col ∈ ph ->
      (cfg.updated_at_col = "" ∨ cfg.updated_at_col ∈ ph) ->
      (∀ p ∈ objsOf pl, uidOf p ≠ "") ->
      cfg.soft_col ≠ cfg.soft_at_col ->
      cfg.updated_at_col ≠ cfg.soft_col ->
      cfg.updated_at_col ≠ cfg.soft_at_col ->
      existing = buildExisting (ph.indexOf cfg.proc_fk_col) (ph.indexOf "UID") rid
        s.procs.rows ->
      removedL = (existing.map Prod.fst).filter
        (fun u => u ∉ (objsOf pl).map uidOf) ->
      (∀ uid, uid ∈ removedL ↔
        (uid ∈ existing.map Prod.fst ∧ uid ∉ (objsOf pl).map uidOf)) ∧
      ∃ added updated upds2 s4,
        procPhase cfg now genId jsonLoads body rid ph s =
          (s4, Except.ok ((added, updated, removedL.length), upds2)) ∧
        (∀ uid ∈ removedL, ∃ rnum vals pre post,
          dlookup existing uid = some rnum ∧
          upds2 = pre ++ ⟨TabId.procs, rnum, vals⟩ :: post ∧
          vals.getD (ph.indexOf cfg.soft_col) (Val.vStr "") = Val.vBool true ∧
          vals.getD (ph.indexOf cfg.soft_at_col) (Val.vStr "") = Val.vStr now ∧
          (cfg.updated_at_col ≠ "" ∧ cfg.updated_at_col ∈ ph ->
            vals.getD (ph.indexOf cfg.updated_at_col) (Val.vStr "") = Val.vStr now))) ∧
    ((publish Cx.cfgStrict "T1" Cx.genIdCx Cx.jsonNone Cx.bodyU1 Cx.sheetFull).2 =
       Except.ok ⟨"R1", "update", 0, 1, 1, "T1"⟩ ∧
     ((publish Cx.cfgStrict "T1" Cx.genIdCx Cx.jsonNone Cx.bodyU1
         Cx.sheetFull).1.procs.rows.getD 1 []).getD 3 (Val.vStr "") = Val.vBool true ∧
     ((publish Cx.cfgStrict "T1" Cx.genIdCx Cx.jsonNone Cx.bodyU1
         Cx.sheetFull).1.procs.rows.getD 1 []).getD 4 (Val.vStr "") = Val.vStr "T1") := by
  constructor
  · intro cfg now genId jsonLoads body rid ph s pl existing removedL hraw hph hpne hfk
      huidc hpkc hsoft hsoftat hupd hgood hd1 hd2 hd3 hex hrem
    constructor
    · intro uid
      rw [hrem]
      simp [List.mem_filter]
    · obtain ⟨added, updated, upds2, s4, heq, hm, hph4, hpre, hnd, hper⟩ :=
        procPhase_ok cfg now genId jsonLoads body rid ph s pl existing
          ((objsOf pl).map uidOf) removedL hraw hph hpne hfk huidc (fun _ => hpkc)
          hsoft hsoftat hupd hgood hd1 hd2 hd3 hex rfl hrem
      refine ⟨added, updated, upds2, s4, heq, ?_⟩
      intro uid huid
      obtain ⟨rnum, vals, pre, post, hdl, hb1, hb2, hupds, hpost, hlen, hc1, hc2, hc3⟩ :=
        hper uid huid
      exact ⟨rnum, vals, pre, post, hdl, hupds, hc1, hc2, hc3⟩
  · exact ⟨rfl, rfl, rfl⟩

/-- C3 witness: recorded children `U1`, `U2` of `R1`, incoming `[U1]` —
removed set `[U2]`, deleted count 1, and the staged row for `U2` carries the
flag and both timestamps. -/
theorem C3_removed_set_soft_delete_witness :
    (∀ uid, uid ∈ (["U2"] : List String) ↔
      (uid ∈ ([("U1", 2), ("U2", 3)] : List (String × Nat)).map Prod.fst ∧
       uid ∉ (objsOf [Val.vObj [("UID", Val.vStr "U1")]]).map uidOf)) ∧
    ∃ added updated upds2 s4,
      procPhase Cx.cfgStrict "T1" Cx.genIdCx Cx.jsonNone Cx.bodyU1 "R1"
          Cx.sheetFull.procs.header Cx.sheetFull =
        (s4, Except.ok ((added, updated, (["U2"] : List String).length), upds2)) ∧
      (∀ uid ∈ (["U2"] : List String), ∃ rnum vals pre post,
        dlookup ([("U1", 2), ("U2", 3)] : List (String × Nat)) uid = some rnum ∧
        upds2 = pre ++ ⟨TabId.procs, rnum, vals⟩ :: post ∧
        vals.getD (Cx.sheetFull.procs.header.indexOf Cx.cfgStrict.soft_col)
          (Val.vStr "") = Val.vBool true ∧
        vals.getD (Cx.sheetFull.procs.header.indexOf Cx.cfgStrict.soft_at_col)
          (Val.vStr "") = Val.vStr "T1" ∧
        (Cx.cfgStrict.updated_at_col ≠ "" ∧
            Cx.cfgStrict.updated_at_col ∈ Cx.sheetFull.procs.header ->
          vals.getD (Cx.sheetFull.procs.header.indexOf Cx.cfgStrict.updated_at_col)
            (Val.vStr "") = Val.vStr "T1")) :=
  (C3_removed_set_soft_delete.1 Cx.cfgStrict "T1" Cx.genIdCx Cx.jsonNone Cx.bodyU1
    "R1" Cx.sheetFull.procs.header Cx.sheetFull [Val.vObj [("UID", Val.vStr "U1")]]
    [("U1", 2), ("U2", 3)] ["U2"] rfl rfl (by decide) (by decide) (by decide)
    (by decide) (by decide) (by decide) (Or.inr (by decide)) (by decide) (by decide)
    (by decide) (by decide) (by decide) (by decide))

/-- C8 (amended, strict variant `app.py`): a publish with delete intent for
the main record and no existing main row for the key — with the child-list
key absent and the ensured columns already present — performs no write at all
(the returned sheet is the input sheet unchanged) and returns main action
`"soft_delete"` with counts (0, 0, 0).  (The `main.py` variant returns
`"noop_delete"` in this situation — see the counterexample.) -/
theorem C8_delete_missing_row (cfg : Config) (now : String) (genId : Nat -> String)
    (jsonLoads : String -> Option Val) (body : Obj) (s0 : Sheet) (rv : Val)
    (rid : String)
    (hrow : lookupObj body "row_id" = some rv)
    (hrv : pyStrip (pyStr rv) = rid)
    (hridne : rid ≠ "")
    (hmne : s0.main.header ≠ [])
    (hpk : cfg.main_pk_col ∈ s0.main.header)
    (hmap : ∀ c ∈ cfg.main_mapping.map Prod.snd, c ∈ s0.main.header)
    (hpne : s0.procs.header ≠ [])
    (hpfk : cfg.proc_fk_col ∈ s0.procs.header)
    (hppk : cfg.proc_pk_col ∈ s0.procs.header)
    (hpmap : ∀ c ∈ cfg.proc_mapping.map Prod.snd, c ∈ s0.procs.header)
    (hdel : get_flag body cfg.delete_flag_keys = true)
    (hnf : findRowAux (s0.main.header.indexOf cfg.main_pk_col)
      (pyStrip (pyStr (Val.vStr rid))) 2 s0.main.rows = none)
    (hnoproc : lookupObj body cfg.processes_key = none) :
    publish cfg now genId jsonLoads body s0 =
      (s0, Except.ok ⟨rid, "soft_delete", 0, 0, 0, now⟩) := by
  have hens1 : ensure_columns cfg.auto_add cfg.main_tab s0.main
      ([cfg.main_pk_col] ++ cfg.main_mapping.map Prod.snd) =
      (s0.main, Except.ok s0.main.header) := by
    apply ensure_noop _ _ _ _ hmne
    intro c hc
    rw [mem_uniq] at hc
    rcases List.mem_append.mp hc.2 with h1 | h1
    · rcases List.mem_cons.mp h1 with rfl | h2
      · exact hpk
      · simp at h2
    · exact hmap c h1
  have hens2 : ensure_columns cfg.auto_add cfg.proc_tab s0.procs
      ([cfg.proc_fk_col, cfg.proc_pk_col] ++ cfg.proc_mapping.map Prod.snd) =
      (s0.procs, Except.ok s0.procs.header) := by
    apply ensure_noop _ _ _ _ hpne
    intro c hc
    rw [mem_uniq] at hc
    rcases List.mem_append.mp hc.2 with h1 | h1
    · rcases List.mem_cons.mp h1 with rfl | h2
      · exact hpfk
      · rcases List.mem_cons.mp h2 with rfl | h3
        · exact hppk
        · simp at h3
    · exact hpmap c h1
  have hmaineq : mainPhase cfg now body rid s0.main.header s0 =
      (s0, Except.ok ("soft_delete", [])) := by
    unfold mainPhase
    rw [show find_row_num_by_key cfg.main_tab s0.main.header cfg.main_pk_col
        (Val.vStr rid) s0.main =
        Except.ok (findRowAux (s0.main.header.indexOf cfg.main_pk_col)
          (pyStrip (pyStr (Val.vStr rid))) 2 s0.main.rows) from by
      simp [find_row_num_by_key, hpk]]
    dsimp only
    rw [if_pos hdel, hnf]
  have hproc : procPhase cfg now genId jsonLoads body rid s0.procs.header s0 =
      (s0, Except.ok ((0, 0, 0), [])) := by
    unfold procPhase
    rw [hnoproc]
  unfold publish
  rw [hrow]
  dsimp only
  rw [if_neg (by rw [hrv]; exact hridne)]
  rw [hrv]
  rw [hens1]
  dsimp only
  rw [hens2]
  dsimp only
  rw [hmaineq]
  dsimp only
  rw [hproc]
  rfl

/-- C8 witness: delete-flagged payload for key `R9`, which has no main row in
the sheet; the publish returns the sheet unchanged with action
`"soft_delete"`. -/
theorem C8_delete_missing_row_witness :
    publish Cx.cfgStrict "T1" Cx.genIdCx Cx.jsonNone Cx.c8Body Cx.sheetFull =
      (Cx.sheetFull, Except.ok ⟨"R9", "soft_delete", 0, 0, 0, "T1"⟩) :=
  C8_delete_missing_row Cx.cfgStrict "T1" Cx.genIdCx Cx.jsonNone Cx.c8Body
    Cx.sheetFull (Val.vStr "R9") "R9" rfl rfl (by decide) (by decide) (by decide)
    (by simp [Cx.cfgStrict]) (by decide) (by decide) (by decide)
    (by simp [Cx.cfgStrict]) rfl rfl rfl

/-- C4: no publish ever removes a data row — for every request (success or
error) the row count of each tab never decreases — and a delete-flagged
publish for an existing key (child-list key absent, ensured columns present
and pairwise distinct) leaves the row count unchanged, returns action
`"soft_delete"`, leaves the child tab untouched, and rewrites the located row
in place with its soft-delete flag cell true and its deletion timestamp cell
set to now. -/
theorem C4_rows_never_removed :
    (forall (cfg : Config) (now : String) (genId : Nat -> String)
      (jsonLoads : String -> Option Val) (body : Obj) (s0 : Sheet),
      s0.main.rows.length <= ((publish cfg now genId jsonLoads body s0).1).main.rows.length ∧
      s0.procs.rows.length <= ((publish cfg now genId jsonLoads body s0).1).procs.rows.length) ∧
    (forall (cfg : Config) (now : String) (genId : Nat -> String)
      (jsonLoads : String -> Option Val) (body : Obj) (s0 : Sheet) (rv : Val)
      (rid : String) (rnum : Nat),
      lookupObj body "row_id" = some rv ->
      pyStrip (pyStr rv) = rid -> rid ≠ "" ->
      s0.main.header ≠ [] -> cfg.main_pk_col ∈ s0.main.header ->
      (∀ c ∈ cfg.main_mapping.map Prod.snd, c ∈ s0.main.header) ->
      s0.procs.header ≠ [] -> cfg.proc_fk_col ∈ s0.procs.header ->
      cfg.proc_pk_col ∈ s0.procs.header ->
      (∀ c ∈ cfg.proc_mapping.map Prod.snd, c ∈ s0.procs.header) ->
      cfg.soft_col ∈ s0.main.header -> cfg.soft_at_col ∈ s0.main.header ->
      (cfg.updated_at_col = "" ∨ cfg.updated_at_col ∈ s0.main.header) ->
      cfg.soft_col ≠ cfg.soft_at_col ->
      cfg.updated_at_col ≠ cfg.soft_col ->
      cfg.updated_at_col ≠ cfg.soft_at_col ->
      get_flag body cfg.delete_flag_keys = true ->
      findRowAux (s0.main.header.indexOf cfg.main_pk_col)
        (pyStrip (pyStr (Val.vStr rid))) 2 s0.main.rows = some rnum ->
      lookupObj body cfg.processes_key = none ->
      ∃ s2, publish cfg now genId jsonLoads body s0 =
          (s2, Except.ok ⟨rid, "soft_delete", 0, 0, 0, now⟩) ∧
        s2.main.rows.length = s0.main.rows.length ∧
        s2.procs = s0.procs ∧
        (s2.main.rows.getD (rnum - 2) []).getD
          (s0.main.header.indexOf cfg.soft_col) (Val.vStr "") = Val.vBool true ∧
        (s2.main.rows.getD (rnum - 2) []).getD
          (s0.main.header.indexOf cfg.soft_at_col) (Val.vStr "") = Val.vStr now) := by
  constructor
  · intro cfg now genId jsonLoads body s0
    exact publish_rows_mono cfg now genId jsonLoads body s0
  · intro cfg now genId jsonLoads body s0 rv rid rnum hrow hrv hridne hmne hpk hmap
      hpne hpfk hppk hpmap hsoft hsoftat hupd hd1 hd2 hd3 hdel hfound hnoproc
    have hens1 : ensure_columns cfg.auto_add cfg.main_tab s0.main
        ([cfg.main_pk_col] ++ cfg.main_mapping.map Prod.snd) =
        (s0.main, Except.ok s0.main.header) := by
      apply ensure_noop _ _ _ _ hmne
      intro c hc
      rw [mem_uniq] at hc
      rcases List.mem_append.mp hc.2 with h1 | h1
      · rcases List.mem_cons.mp h1 with rfl | h2
        · exact hpk
        · simp at h2
      · exact hmap c h1
    have hens2 : ensure_columns cfg.auto_add cfg.proc_tab s0.procs
        ([cfg.proc_fk_col, cfg.proc_pk_col] ++ cfg.proc_mapping.map Prod.snd) =
        (s0.procs, Except.ok s0.procs.header) := by
      apply ensure_noop _ _ _ _ hpne
      intro c hc
      rw [mem_uniq] at hc
      rcases List.mem_append.mp hc.2 with h1 | h1
      · rcases List.mem_cons.mp h1 with rfl | h2
        · exact hpfk
        · rcases List.mem_cons.mp h2 with rfl | h3
          · exact hppk
          · simp at h3
      · exact hpmap c h1
    have hens3 : ensure_columns cfg.auto_add cfg.main_tab s0.main
        ([cfg.soft_col, cfg.soft_at_col, cfg.updated_at_col] ++ s0.main.header) =
        (s0.main, Except.ok s0.main.header) := by
      apply ensure_noop _ _ _ _ hmne
      intro c hc
      rw [mem_uniq] at hc
      rcases List.mem_append.mp hc.2 with h1 | h1
      · rcases List.mem_cons.mp h1 with rfl | h2
        · exact hsoft
        · rcases List.mem_cons.mp h2 with rfl | h3
          · exact hsoftat
          · rcases List.mem_cons.mp h3 with rfl | h4
            · rcases hupd with he | hm
              · exact absurd he hc.1
              · exact hm
            · simp at h4
      · exact h1
    obtain ⟨current, hmaineq, hclen, hcsoft, hcsoftat⟩ : ∃ current,
        mainPhase cfg now body rid s0.main.header s0 =
          (s0, Except.ok ("soft_delete", [⟨TabId.main, rnum, current⟩])) ∧
        current.length = s0.main.header.length ∧
        current.getD (s0.main.header.indexOf cfg.soft_col) (Val.vStr "") =
          Val.vBool true ∧
        current.getD (s0.main.header.indexOf cfg.soft_at_col) (Val.vStr "") =
          Val.vStr now := by
      obtain ⟨h1, h2, h3⟩ := mainDelete_cells cfg now s0.main.header
        (get_row_values s0.main rnum s0.main.header.length)
        (get_row_values_length s0.main rnum _) hsoft hsoftat hupd hd1 hd2 hd3
      refine ⟨_, ?_, h1, h2, h3⟩
      unfold mainPhase
      rw [show find_row_num_by_key cfg.main_tab s0.main.header cfg.main_pk_col
          (Val.vStr rid) s0.main =
          Except.ok (findRowAux (s0.main.header.indexOf cfg.main_pk_col)
            (pyStrip (pyStr (Val.vStr rid))) 2 s0.main.rows) from by
        simp [find_row_num_by_key, hpk]]
      dsimp only
      rw [if_pos hdel, hfound]
      dsimp only
      rw [hens3]
    have hproc : procPhase cfg now genId jsonLoads body rid s0.procs.header s0 =
        (s0, Except.ok ((0, 0, 0), [])) := by
      unfold procPhase
      rw [hnoproc]
    have hbounds := findRowAux_bounds (s0.main.header.indexOf cfg.main_pk_col)
      (pyStrip (pyStr (Val.vStr rid))) s0.main.rows 2 rnum hfound
    have hpub : publish cfg now genId jsonLoads body s0 =
        (batch_update s0 ([⟨TabId.main, rnum, current⟩] ++ []),
         Except.ok ⟨rid, "soft_delete", 0, 0, 0, now⟩) := by
      unfold publish
      rw [hrow]
      dsimp only
      rw [if_neg (by rw [hrv]; exact hridne)]
      rw [hrv]
      rw [hens1]
      dsimp only
      rw [hens2]
      dsimp only
      rw [hmaineq]
      dsimp only
      rw [hproc]
    have hb2 : rnum - 2 < s0.main.rows.length := hbounds.2
    have hrowvals : (batch_update s0
        ([⟨TabId.main, rnum, current⟩] ++ [])).main.rows.getD (rnum - 2) [] =
        current ++ (s0.main.rows.getD (rnum - 2) []).drop current.length := by
      simp only [List.append_nil, batch_update, List.foldl_cons, List.foldl_nil,
        writeRowRange]
      simp only [List.getD, List.get?_eq_getElem?]
      rw [List.getElem?_set_self hb2]
      rfl
    refine ⟨batch_update s0 ([⟨TabId.main, rnum, current⟩] ++ []), hpub, ?_, ?_, ?_, ?_⟩
    · exact (batch_update_rows_length s0 _).1
    · apply batch_update_procs_eq
      intro u hu
      rcases List.mem_append.mp hu with h1 | h1
      · simp only [List.mem_singleton] at h1
        subst h1
        rfl
      · simp at h1
    · rw [hrowvals,
        List.getD_append _ _ _ _ (by rw [hclen]; exact List.indexOf_lt_length.mpr hsoft)]
      exact hcsoft
    · rw [hrowvals,
        List.getD_append _ _ _ _ (by rw [hclen]; exact List.indexOf_lt_length.mpr hsoftat)]
      exact hcsoftat

/-- C4 witness: a delete-flagged publish for the existing key `R1` on a sheet
with the marker columns present: row count unchanged and the flag and
timestamp cells of main row 3 set. -/
theorem C4_rows_never_removed_witness :
    ∃ s2, publish Cx.cfgStrict "T1" Cx.genIdCx Cx.jsonNone Cx.c4Body Cx.sheetFull =
        (s2, Except.ok ⟨"R1", "soft_delete", 0, 0, 0, "T1"⟩) ∧
      s2.main.rows.length = Cx.sheetFull.main.rows.length ∧
      s2.procs = Cx.sheetFull.procs ∧
      (s2.main.rows.getD (3 - 2) []).getD
        (Cx.sheetFull.main.header.indexOf Cx.cfgStrict.soft_col) (Val.vStr "") =
        Val.vBool true ∧
      (s2.main.rows.getD (3 - 2) []).getD
        (Cx.sheetFull.main.header.indexOf Cx.cfgStrict.soft_at_col) (Val.vStr "") =
        Val.vStr "T1" :=
  C4_rows_never_removed.2 Cx.cfgStrict "T1" Cx.genIdCx Cx.jsonNone Cx.c4Body
    Cx.sheetFull (Val.vStr "R1") "R1" 3 rfl rfl (by decide) (by decide) (by decide)
    (by simp [Cx.cfgStrict]) (by decide) (by decide) (by decide)
    (by simp [Cx.cfgStrict]) (by decide) (by decide) (Or.inr (by decide)) (by decide)
    (by decide) (by decide) rfl rfl rfl

end QMS
